import Mathlib

/-!
Verification of the version-upper tool (src/version_upper.py).

The program keeps a pair of version strings (`current_version`,
`current_semantic_version`) in a JSON config, and rewrites version strings
inside a list of tracked files.  All string processing in the source is done
with Python regular expressions over ASCII text; here the relevant regexes are
embedded as executable functions over `List Char`.

The regexes appearing in the source are fixed:
  * `(\d+)\.\d+\.\d+`, `\d+\.(\d+)\.\d+`, `\d+\.\d+\.(\d+)`   (semantic parse)
  * `\d+\.\d+\.\d+rc(\d+)`                                     (rc counter)
  * `(\d+\.\d+\.\d+)rc.*`                                      (release strip)
  * the template search pattern: the user template with the placeholder
    replaced by `(?P<current_version>(\d+\.\d+\.\d+(rc\d+)?)|[a-f\d]{40})`.
For each of these, greedy matching with backtracking is implemented directly;
because `\d` runs are always followed by a non-digit in the patterns above,
the digit runs are forced maximal except for the last run of the template
group, where genuine backtracking (shorter runs, optional `rc` part) is
enumerated in the engine's priority order.  Search is leftmost, advancing one
character at a time, exactly like `re.search`.

Search-pattern templates are modelled as a literal text before and after the
placeholder (the scenarios in the spec use only such templates); regex
metacharacters inside templates are outside the scope of this model.
-/

set_option maxRecDepth 4000

/-- Decidable equality for `Except`, used to evaluate concrete transition
results. -/
instance {ε α : Type} [DecidableEq ε] [DecidableEq α] : DecidableEq (Except ε α) := fun x y =>
  match x, y with
  | .error a, .error b =>
    if h : a = b then isTrue (by rw [h]) else isFalse (fun hc => by cases hc; exact h rfl)
  | .error _, .ok _ => isFalse (fun hc => by cases hc)
  | .ok _, .error _ => isFalse (fun hc => by cases hc)
  | .ok a, .ok b =>
    if h : a = b then isTrue (by rw [h]) else isFalse (fun hc => by cases hc; exact h rfl)

/-- The character class `\d` of the source's regexes (ASCII input). -/
def isDigitC (c : Char) : Bool := c.isDigit

/-- The character class `[a-f\d]` used for commit hashes. -/
def isHexLower (c : Char) : Bool := c.isDigit || ('a' ≤ c && c ≤ 'f')

/-- Greedy `\d*`: the maximal digit run at the head of the list and the rest. -/
def takeDigits : List Char → List Char × List Char
  | [] => ([], [])
  | c :: cs =>
    if isDigitC c then
      let t := takeDigits cs
      (c :: t.1, t.2)
    else ([], c :: cs)

/-- All characters are digits. -/
def allDigits (l : List Char) : Bool := l.all isDigitC

/-- The list is empty or does not start with a digit (a digit run cannot be
extended into it). -/
def headNotDigit : List Char → Bool
  | [] => true
  | c :: _ => !isDigitC c

/-- Match `(\d+)\.(\d+)\.(\d+)` at the head of the list, returning the three
digit runs and the rest.  All three runs are forced maximal: the first two are
followed by `\.` in the pattern and the third is greedy. -/
def matchSemAt (s : List Char) : Option (List Char × List Char × List Char × List Char) :=
  let t1 := takeDigits s
  if t1.1.isEmpty then none else
  match t1.2 with
  | '.' :: r2 =>
    let t2 := takeDigits r2
    if t2.1.isEmpty then none else
    match t2.2 with
    | '.' :: r4 =>
      let t3 := takeDigits r4
      if t3.1.isEmpty then none else some (t1.1, t2.1, t3.1, t3.2)
    | _ => none
  | _ => none

/-- `re.search` for `\d+\.\d+\.\d+` (with the three runs as groups): try every
position left to right.  Models the searches at src/version_upper.py:298-303. -/
def searchSem : List Char → Option (List Char × List Char × List Char × List Char)
  | [] => none
  | c :: cs =>
    match matchSemAt (c :: cs) with
    | some r => some r
    | none => searchSem cs

/-- Match `\d+\.\d+\.\d+rc(\d+)` at the head of the list; the result also
carries the three leading digit runs and the rest after the rc counter. -/
def matchRcAt (s : List Char) : Option (List Char × List Char × List Char × List Char × List Char) :=
  match matchSemAt s with
  | none => none
  | some (m, n, p, r) =>
    match r with
    | 'r' :: 'c' :: r2 =>
      let t := takeDigits r2
      if t.1.isEmpty then none else some (m, n, p, t.1, t.2)
    | _ => none

/-- `re.search` for `\d+\.\d+\.\d+rc(\d+)` (src/version_upper.py:175,319). -/
def searchRc : List Char → Option (List Char × List Char × List Char × List Char × List Char)
  | [] => none
  | c :: cs =>
    match matchRcAt (c :: cs) with
    | some r => some r
    | none => searchRc cs

/-- Match `(\d+\.\d+\.\d+)rc.*` at the head of the list, returning group 1
(the matched `M.N.P` text, leading zeros preserved). -/
def matchRelAt (s : List Char) : Option (List Char) :=
  match matchSemAt s with
  | none => none
  | some (m, n, p, r) =>
    match r with
    | 'r' :: 'c' :: _ => some (m ++ '.' :: (n ++ '.' :: p))
    | _ => none

/-- `re.search` for `(\d+\.\d+\.\d+)rc.*` (src/version_upper.py:181-182). -/
def searchRel : List Char → Option (List Char)
  | [] => none
  | c :: cs =>
    match matchRelAt (c :: cs) with
    | some r => some r
    | none => searchRel cs

/-- The decimal digit characters, as produced by Python's `str` on an `int`
digit value. -/
def digitChar (k : Nat) : Char :=
  if k = 0 then '0' else if k = 1 then '1' else if k = 2 then '2'
  else if k = 3 then '3' else if k = 4 then '4' else if k = 5 then '5'
  else if k = 6 then '6' else if k = 7 then '7' else if k = 8 then '8' else '9'

/-- Numeric value of a digit character, as in Python's `int` on one digit. -/
def digitVal (c : Char) : Nat := c.toNat - 48

/-- Python `int` on a digit string (leading zeros allowed). -/
def digitsToNat (ds : List Char) : Nat := ds.foldl (fun a c => 10 * a + digitVal c) 0

/-- Decimal rendering of a natural number, with explicit fuel so that the
definition is structurally recursive (the fuel argument is always large
enough in `natToDigits` below). -/
def natToDigitsAux : Nat → Nat → List Char
  | 0, _ => []
  | fuel + 1, n =>
    if n < 10 then [digitChar n]
    else natToDigitsAux fuel (n / 10) ++ [digitChar (n % 10)]

/-- Python `str` on a non-negative `int`: canonical decimal digits. -/
def natToDigits (n : Nat) : List Char := natToDigitsAux (n + 1) n

/-- Python f-string `f"{a}.{b}.{c}"` on three parsed integers
(src/version_upper.py:306-322). -/
def fmtSem (a b c : Nat) : List Char :=
  natToDigits a ++ '.' :: (natToDigits b ++ '.' :: natToDigits c)

/-- Does the needle occur at the head of the haystack? -/
def startsWith : List Char → List Char → Bool
  | _, [] => true
  | [], _ :: _ => false
  | c :: cs, d :: ds => c == d && startsWith cs ds

/-- Python's substring containment `needle in hay`. -/
def hasSubstr : List Char → List Char → Bool
  | [], needle => needle.isEmpty
  | c :: cs, needle => startsWith (c :: cs) needle || hasSubstr cs needle

/-- Python `str.replace` (all occurrences, left to right, non-overlapping),
with fuel for structural recursion; `replaceAll` supplies enough fuel.
A replacement consumes the whole occurrence, hence the `drop`. -/
def replaceAllAux (old new : List Char) : Nat → List Char → List Char
  | _, [] => []
  | 0, l => l
  | fuel + 1, c :: cs =>
    if !old.isEmpty && startsWith (c :: cs) old then
      new ++ replaceAllAux old new fuel (List.drop (old.length - 1) cs)
    else
      c :: replaceAllAux old new fuel cs

/-- Python `content.replace(old_version, new_version)`
(src/version_upper.py:245). -/
def replaceAll (old new l : List Char) : List Char := replaceAllAux old new l.length l

/-! ## The compiled search-pattern template

`SearchPattern.search_pattern` is the user template with its single
placeholder replaced by `CURRENT_VERSION_PATTERN`
(src/version_upper.py:15-17,212-216).  With literal template text before and
after the placeholder, a match of the compiled pattern at a position is: the
literal text before, then the capture group
`(\d+\.\d+\.\d+(rc\d+)?)|[a-f\d]{40}`, then the literal text after.  The
candidate captures at a position are enumerated below in the engine's
backtracking priority order: first alternative first, longer greedy digit run
first, optional `rc` part present (with longer counter) before absent. -/

/-- Splits of a digit run, longest part kept first, as greedy backtracking
enumerates them; the second component is what follows the kept part. -/
def splitsDesc (ds r : List Char) : List (List Char × List Char) :=
  (List.range ds.length).map (fun i => (ds.take (ds.length - i), ds.drop (ds.length - i) ++ r))

/-- Candidates for the optional `(rc\d+)?` part at a position: present with a
greedy counter first (longer counter first), then absent.  Each candidate is
the consumed text and the rest. -/
def rcCandidates (s : List Char) : List (List Char × List Char) :=
  (match s with
   | 'r' :: 'c' :: rest =>
     let t := takeDigits rest
     (splitsDesc t.1 t.2).map (fun q => ('r' :: 'c' :: q.1, q.2))
   | _ => []) ++ [([], s)]

/-- Candidates (capture, rest) of the first alternative
`\d+\.\d+\.\d+(rc\d+)?` at a position, in backtracking priority order.
The first two digit runs are forced maximal (each is followed by `\.`); the
third run backtracks from its maximal length. -/
def semCandidates (s : List Char) : List (List Char × List Char) :=
  let t1 := takeDigits s
  if t1.1.isEmpty then [] else
  match t1.2 with
  | '.' :: r2 =>
    let t2 := takeDigits r2
    if t2.1.isEmpty then [] else
    match t2.2 with
    | '.' :: r4 =>
      let t3 := takeDigits r4
      (splitsDesc t3.1 t3.2).flatMap (fun q =>
        (rcCandidates q.2).map (fun w => (t1.1 ++ '.' :: t2.1 ++ '.' :: q.1 ++ w.1, w.2)))
    | _ => []
  | _ => []

/-- Candidate of the second alternative `[a-f\d]{40}` at a position. -/
def hashCandidate (s : List Char) : List (List Char × List Char) :=
  let h := s.take 40
  if h.length = 40 && h.all isHexLower then [(h, s.drop 40)] else []

/-- All candidates of the capture group at a position, in priority order. -/
def groupCandidates (s : List Char) : List (List Char × List Char) :=
  semCandidates s ++ hashCandidate s

/-- Match the compiled template pattern at the head of the list: the literal
text `preL`, then the first group candidate after which the literal text
`sufL` follows.  Returns the capture and the text after the capture (the text
after the span of the named group, as used at src/version_upper.py:232). -/
def tryMatchAt (preL sufL s : List Char) : Option (List Char × List Char) :=
  if startsWith s preL then
    (groupCandidates (s.drop preL.length)).find? (fun q => startsWith q.2 sufL)
  else none

/-- `re.search` of the compiled template pattern: leftmost match, returning
`(before, capture, after)` where the content is `before ++ capture ++ after`
and `before` ends with the literal text `preL`. -/
def searchTemplate (preL sufL : List Char) : List Char → Option (List Char × List Char × List Char)
  | [] => none
  | c :: cs =>
    match tryMatchAt preL sufL (c :: cs) with
    | some (cap, rest) => some (preL, cap, rest)
    | none =>
      match searchTemplate preL sufL cs with
      | some (b, cap, rest) => some (c :: b, cap, rest)
      | none => none

/-- The while loop of src/version_upper.py:221-235: search the content; while
there is a match whose capture differs from `newV`, splice `newV` over the
span of the capture group and search the mutated content again.  The source
loop has no fuel; `none` marks fuel exhaustion (the loop would continue). -/
def replaceLoop (preL sufL newV : List Char) : Nat → List Char → Option (List Char)
  | 0, content =>
    match searchTemplate preL sufL content with
    | none => some content
    | some (_, cap, _) => if cap = newV then some content else none
  | f + 1, content =>
    match searchTemplate preL sufL content with
    | none => some content
    | some (b, cap, rest) =>
      if cap = newV then some content
      else replaceLoop preL sufL newV f (b ++ newV ++ rest)

/-! ## Data model and the two commands -/

/-- The two version fields of the config (src/version_upper.py:52-69).  The
`files` list is modelled separately as tracked targets with their contents
inlined. -/
structure Config where
  current_version : List Char
  current_semantic_version : List Char
deriving DecidableEq, Repr

/-- A tracked file target together with its content.  `plain` is a
`FilePath` entry (directories are expanded externally into such entries);
`search` is a `SearchPattern` entry whose template is the literal text
`preL`, then the placeholder, then the literal text `sufL`. -/
inductive Target where
  | plain (path : List Char) (content : List Char)
  | search (path : List Char) (preL sufL : List Char) (content : List Char)
deriving DecidableEq, Repr

/-- Path of a target. -/
def Target.path : Target → List Char
  | .plain p _ => p
  | .search p _ _ _ => p

/-- Errors that abort a command.  `usage` is a `click.BadOptionUsage`
(a `UsageError`, exit status 2); the other constructors are
`click.ClickException`s or an uncaught Python exception (`crash`), all of
which terminate the process with exit status 1. -/
inductive CmdErr where
  | usage (msg : List Char)
  | notAReleaseCandidate
  | versionNotFound (old : List Char) (path : List Char)
  | crash
deriving DecidableEq, Repr

/-- Process exit status of an error. -/
def CmdErr.exitCode : CmdErr → Nat
  | .usage _ => 2
  | _ => 1

/-- The single descriptive line reported for an error. -/
def CmdErr.message : CmdErr → List Char
  | .usage m => m
  | .notAReleaseCandidate => "Unable to release if current version does not contain rc".data
  | .versionNotFound old p => "Unable to find ".data ++ old ++ " in ".data ++ p
  | .crash => "AttributeError".data

/-- File-system effects of a command, in order of occurrence. -/
inductive Eff where
  | readConfigFile
  | readTracked (path : List Char)
  | writeTracked (path : List Char)
  | writeConfigFile
deriving DecidableEq, Repr

/-- Outcome of handling one target inside `__replace_version_strings`
(src/version_upper.py:204-247).  `hang` marks a search-pattern loop that did
not finish within the available fuel (the source loop would still be
running). -/
inductive PResult where
  | ok (t : Target)
  | err (e : CmdErr)
  | hang
deriving DecidableEq, Repr

/-- Handle one target of the config's file list: a plain target fails unless
the old version occurs in its content and otherwise has every occurrence
replaced (src/version_upper.py:238-247); a search-pattern target runs the
replacement loop (src/version_upper.py:205-237). -/
def processTarget (old newV : List Char) (fuel : Nat) : Target → PResult
  | .plain p c =>
    if hasSubstr c old then .ok (.plain p (replaceAll old newV c))
    else .err (.versionNotFound old p)
  | .search p a b c =>
    match replaceLoop a b newV fuel c with
    | some c' => .ok (.search p a b c')
    | none => .hang

/-- Outcome of the loop over all targets.  In every case the carried list is
the state of the tracked files on disk afterwards: on an error, targets
before the failing one have already been rewritten and the failing target and
all later ones are untouched. -/
inductive FilesResult where
  | ok (files : List Target)
  | err (e : CmdErr) (files : List Target)
  | hang (files : List Target)
deriving DecidableEq, Repr

/-- The loop over the config's file list (src/version_upper.py:204-247),
with the effect trace: each target is read, then (if its handling succeeds)
written; an error stops the loop after the read of the failing target. -/
def processFiles (old newV : List Char) (fuel : Nat) : List Target → List Eff × FilesResult
  | [] => ([], .ok [])
  | t :: ts =>
    match processTarget old newV fuel t with
    | .ok t' =>
      let rest := processFiles old newV fuel ts
      (Eff.readTracked t.path :: Eff.writeTracked t.path :: rest.1,
       match rest.2 with
       | .ok fs => .ok (t' :: fs)
       | .err e fs => .err e (t' :: fs)
       | .hang fs => .hang (t' :: fs))
    | .err e => ([Eff.readTracked t.path], .err e (t :: ts))
    | .hang => ([Eff.readTracked t.path], .hang (t :: ts))

/-- State of the whole system: the stored config and the tracked files. -/
structure SysState where
  config : Config
  files : List Target
deriving DecidableEq, Repr

/-- Outcome of a command, carrying the on-disk state afterwards. -/
inductive RunResult where
  | ok (s : SysState)
  | err (e : CmdErr) (s : SysState)
  | hang (s : SysState)
deriving DecidableEq, Repr

/-- Truthiness of the optional `new_semantic_version` argument
(src/version_upper.py:249-250): the stored semantic version is updated only
when the argument is present and non-empty (Python `if new_semantic_version:`). -/
def newSemValue (cfg : Config) (newSem : Option (List Char)) : List Char :=
  match newSem with
  | some t => if t.isEmpty then cfg.current_semantic_version else t
  | none => cfg.current_semantic_version

/-- `__replace_version_strings` (src/version_upper.py:186-252): rewrite every
tracked file, then update `current_version`, update
`current_semantic_version` only when a truthy new value was passed, and write
the config file last.  On an error the config is untouched. -/
def replaceVersionStrings (cfg : Config) (files : List Target) (newV : List Char)
    (newSem : Option (List Char)) (fuel : Nat) : List Eff × RunResult :=
  let r := processFiles cfg.current_version newV fuel files
  match r.2 with
  | .ok fs => (r.1 ++ [Eff.writeConfigFile], .ok ⟨⟨newV, newSemValue cfg newSem⟩, fs⟩)
  | .err e fs => (r.1, .err e ⟨cfg, fs⟩)
  | .hang fs => (r.1, .hang ⟨cfg, fs⟩)

/-- The five bump parts (src/version_upper.py:80-85). -/
inductive BumpPart where
  | major | minor | patch | rc | commit_hash
deriving DecidableEq, Repr

/-- Message of the usage error raised for `--release-candidate` with `rc`
(src/version_upper.py:290-294). -/
def rcUsageMsg : List Char := "Cannot use --release-candidate when bumping rc".data

/-- Message of the usage error raised for `--release-candidate` with
`commit_hash` (src/version_upper.py:339-344). -/
def commitHashUsageMsg : List Char := "Cannot use --release-candidate when bumping commit_hash".data

/-- Message of the usage error rejecting the `--release-candidate` flag for
the given part. -/
def rcFlagUsageMsg : BumpPart → List Char
  | .commit_hash => commitHashUsageMsg
  | _ => rcUsageMsg

/-- The pure transition of `__bump_semantic` (src/version_upper.py:270-325)
up to the call of `__replace_version_strings`: rejects the
release-candidate flag for `rc`, parses the three components of
`current_semantic_version` by regex search (an `AttributeError` crash when
the search fails), computes `(new_version, new_semantic_version)` per part,
and finally appends `rc1` when the release-candidate flag is set.  As in the
source, every part other than `major`, `minor`, `patch` takes the `rc`
branch. -/
def bumpTransition (cfg : Config) (part : BumpPart) (release_candidate : Bool) :
    Except CmdErr (List Char × List Char) :=
  if part = BumpPart.rc ∧ release_candidate = true then
    Except.error (CmdErr.usage rcUsageMsg)
  else
    match searchSem cfg.current_semantic_version with
    | none => Except.error CmdErr.crash
    | some (m, n, p, _) =>
      let ma := digitsToNat m
      let mi := digitsToNat n
      let pa := digitsToNat p
      let base : Except CmdErr (List Char × List Char) :=
        match part with
        | BumpPart.major => Except.ok (fmtSem (ma + 1) 0 0, fmtSem (ma + 1) 0 0)
        | BumpPart.minor => Except.ok (fmtSem ma (mi + 1) 0, fmtSem ma (mi + 1) 0)
        | BumpPart.patch => Except.ok (fmtSem ma mi (pa + 1), fmtSem ma mi (pa + 1))
        | _ =>
          if hasSubstr cfg.current_version ("rc".data) = false then
            Except.ok (cfg.current_version ++ "rc1".data, fmtSem ma mi pa)
          else
            match searchRc cfg.current_version with
            | none => Except.error CmdErr.crash
            | some (_, _, _, k, _) =>
              Except.ok (cfg.current_semantic_version ++ 'r' :: 'c' :: natToDigits (digitsToNat k + 1),
                         fmtSem ma mi pa)
      match base with
      | Except.error e => Except.error e
      | Except.ok (v, s) =>
        Except.ok ((if release_candidate then v ++ "rc1".data else v), s)

/-- The `bump` command (src/version_upper.py:328-348), including the config
load performed by the group callback (src/version_upper.py:143-145) as the
leading effect.  `gitHash` is the output of the external `git log` call used
for the `commit_hash` part. -/
def runBump (cfg : Config) (files : List Target) (part : BumpPart)
    (release_candidate : Bool) (gitHash : List Char) (fuel : Nat) : List Eff × RunResult :=
  let step : List Eff × RunResult :=
    if part = BumpPart.commit_hash then
      if release_candidate then ([], .err (CmdErr.usage commitHashUsageMsg) ⟨cfg, files⟩)
      else replaceVersionStrings cfg files gitHash none fuel
    else
      match bumpTransition cfg part release_candidate with
      | Except.error e => ([], .err e ⟨cfg, files⟩)
      | Except.ok (v, s) => replaceVersionStrings cfg files v (some s) fuel
  (Eff.readConfigFile :: step.1, step.2)

/-- The `release` command (src/version_upper.py:170-183), including the
config load as the leading effect: fails unless `current_version` contains a
match of `\d+\.\d+\.\d+rc(\d+)`, then strips the rc suffix via group 1 of
`(\d+\.\d+\.\d+)rc.*` and substitutes that value for both stored fields. -/
def runRelease (cfg : Config) (files : List Target) (fuel : Nat) : List Eff × RunResult :=
  let step : List Eff × RunResult :=
    match searchRc cfg.current_version with
    | none => ([], .err CmdErr.notAReleaseCandidate ⟨cfg, files⟩)
    | some _ =>
      match searchRel cfg.current_version with
      | none => ([], .err CmdErr.crash ⟨cfg, files⟩)
      | some cap => replaceVersionStrings cfg files cap (some cap) fuel
  (Eff.readConfigFile :: step.1, step.2)

/-- An operation of the tool: one of the five bump kinds with the
release-candidate flag, or the release command. -/
inductive Op where
  | bump (part : BumpPart) (release_candidate : Bool)
  | release
deriving DecidableEq, Repr

/-- Dispatch an operation. -/
def runOp (cfg : Config) (files : List Target) (gitHash : List Char) (fuel : Nat) :
    Op → List Eff × RunResult
  | .bump part flag => runBump cfg files part flag gitHash fuel
  | .release => runRelease cfg files fuel

/-! ## Shape predicates of the data model (spec section 3) -/

/-- A suffix of the form `rc` followed by at least one digit and nothing
else. -/
def isRcSuffix : List Char → Bool
  | 'r' :: 'c' :: ds => !ds.isEmpty && allDigits ds
  | _ => false

/-- Full match of `\d+\.\d+\.\d+(rc\d+)?`: a strict `major.minor.patch`
string with an optional rc suffix.  Because the two separators and the `r`
of `rc` are not digits, a full match forces every digit run maximal, so the
deterministic `matchSemAt` decides it. -/
def isSemVerOpt (s : List Char) : Bool :=
  match matchSemAt s with
  | some (_, _, _, r) => r.isEmpty || isRcSuffix r
  | none => false

/-- A 40-character lowercase hex commit hash, the second shape of
`current_version`. -/
def isHash40 (s : List Char) : Bool := s.length == 40 && s.all isHexLower

/-- The `current_version` invariant of the data model: one of the two
shapes. -/
def validShape (s : List Char) : Bool := isSemVerOpt s || isHash40 s

/-- Full match of `\d+\.\d+\.\d+`: a strict semantic version with no
suffix, the `current_semantic_version` invariant of the data model. -/
def semStrict (s : List Char) : Bool :=
  match matchSemAt s with
  | some (_, _, _, r) => r.isEmpty
  | none => false

/-- The leftmost match of the compiled template pattern in the content, if
any, captures exactly `newV`. -/
def leftmostCapIsNew (preL sufL newV content : List Char) : Bool :=
  match searchTemplate preL sufL content with
  | none => true
  | some (_, cap, _) => cap == newV

/-- Match of the compiled template pattern at this position whose capture
differs from `newV`. -/
def differingAt (preL sufL newV s : List Char) : Bool :=
  match tryMatchAt preL sufL s with
  | some (cap, _) => cap != newV
  | none => false

/-- Some position of the content carries a match of the compiled template
pattern whose capture differs from `newV`. -/
def hasDifferingMatch (preL sufL newV : List Char) : List Char → Bool
  | [] => differingAt preL sufL newV []
  | c :: cs => differingAt preL sufL newV (c :: cs) || hasDifferingMatch preL sufL newV cs

/-- A 40-character lowercase hex value, used as a concrete commit-hash
version. -/
def hashLike : List Char := "aaaaaaaaaaaaaaaaaaaaaaaaaaaaaaaaaaaaaaaa".data

/-- `j` copies of the text `rc1`, the junk accumulated by the replacement
loop when the new version is a commit hash with an rc suffix appended. -/
def rcReps : Nat → List Char
  | 0 => []
  | j + 1 => "rc1".data ++ rcReps j

/-! ## Lemmas about the digit-run matchers -/

theorem allDigits_cons (c : Char) (l : List Char) :
    allDigits (c :: l) = (isDigitC c && allDigits l) := rfl

theorem allDigits_append (a b : List Char) :
    allDigits (a ++ b) = (allDigits a && allDigits b) := by
  simp [allDigits]

theorem takeDigits_cons_digit (c : Char) (cs : List Char) (h : isDigitC c = true) :
    takeDigits (c :: cs) = (c :: (takeDigits cs).1, (takeDigits cs).2) := by
  simp [takeDigits, h]

theorem takeDigits_cons_nondigit (c : Char) (cs : List Char) (h : isDigitC c = false) :
    takeDigits (c :: cs) = ([], c :: cs) := by
  simp [takeDigits, h]

theorem takeDigits_append (d r : List Char) (hd : allDigits d = true)
    (hr : headNotDigit r = true) : takeDigits (d ++ r) = (d, r) := by
  induction d with
  | nil =>
    cases r with
    | nil => rfl
    | cons c cs =>
      simp only [headNotDigit, Bool.not_eq_true'] at hr
      simpa using takeDigits_cons_nondigit c cs hr
  | cons c d ih =>
    rw [allDigits_cons, Bool.and_eq_true] at hd
    rw [List.cons_append, takeDigits_cons_digit c (d ++ r) hd.1, ih hd.2]

theorem takeDigits_spec (s : List Char) :
    s = (takeDigits s).1 ++ (takeDigits s).2 ∧ allDigits (takeDigits s).1 = true ∧
      headNotDigit (takeDigits s).2 = true := by
  induction s with
  | nil => exact ⟨rfl, rfl, rfl⟩
  | cons c cs ih =>
    by_cases h : isDigitC c = true
    · rw [takeDigits_cons_digit c cs h]
      refine ⟨?_, ?_, ih.2.2⟩
      · simpa using ih.1
      · rw [allDigits_cons, h, Bool.true_and]; exact ih.2.1
    · rw [Bool.not_eq_true] at h
      rw [takeDigits_cons_nondigit c cs h]
      exact ⟨rfl, rfl, by simp [headNotDigit, h]⟩

theorem headNotDigit_dot (x : List Char) : headNotDigit ('.' :: x) = true := by
  simp only [headNotDigit]; decide

theorem headNotDigit_r (x : List Char) : headNotDigit ('r' :: x) = true := by
  simp only [headNotDigit]; decide

theorem matchSemAt_shape (m n p r : List Char) (hm : allDigits m = true)
    (hm0 : m.isEmpty = false) (hn : allDigits n = true) (hn0 : n.isEmpty = false)
    (hp : allDigits p = true) (hp0 : p.isEmpty = false) (hr : headNotDigit r = true) :
    matchSemAt (m ++ '.' :: (n ++ '.' :: (p ++ r))) = some (m, n, p, r) := by
  have hm' : m ≠ [] := fun e => by rw [e] at hm0; simp at hm0
  have hn' : n ≠ [] := fun e => by rw [e] at hn0; simp at hn0
  have hp' : p ≠ [] := fun e => by rw [e] at hp0; simp at hp0
  have h1 := takeDigits_append m ('.' :: (n ++ '.' :: (p ++ r))) hm (headNotDigit_dot _)
  have h2 := takeDigits_append n ('.' :: (p ++ r)) hn (headNotDigit_dot _)
  have h3 := takeDigits_append p r hp hr
  simp [matchSemAt, h1, h2, h3, hm', hn', hp']

theorem matchSemAt_exact (m n p : List Char) (hm : allDigits m = true)
    (hm0 : m.isEmpty = false) (hn : allDigits n = true) (hn0 : n.isEmpty = false)
    (hp : allDigits p = true) (hp0 : p.isEmpty = false) :
    matchSemAt (m ++ '.' :: (n ++ '.' :: p)) = some (m, n, p, []) := by
  have := matchSemAt_shape m n p [] hm hm0 hn hn0 hp hp0 rfl
  simpa using this

theorem matchSemAt_spec (s m n p r : List Char) (h : matchSemAt s = some (m, n, p, r)) :
    s = m ++ '.' :: (n ++ '.' :: (p ++ r)) ∧ allDigits m = true ∧ m.isEmpty = false ∧
      allDigits n = true ∧ n.isEmpty = false ∧ allDigits p = true ∧ p.isEmpty = false ∧
      headNotDigit r = true := by
  obtain ⟨e1, a1, d1⟩ := takeDigits_spec s
  simp only [matchSemAt] at h
  split at h
  · exact absurd h (by simp)
  · rename_i hne1
    split at h
    · rename_i r2 hr2
      obtain ⟨e2, a2, d2⟩ := takeDigits_spec r2
      split at h
      · exact absurd h (by simp)
      · rename_i hne2
        split at h
        · rename_i r4 hr4
          obtain ⟨e3, a3, d3⟩ := takeDigits_spec r4
          split at h
          · exact absurd h (by simp)
          · rename_i hne3
            rw [Option.some.injEq, Prod.mk.injEq, Prod.mk.injEq, Prod.mk.injEq] at h
            obtain ⟨hm', hn', hp', hr'⟩ := h
            subst hm' hn' hp' hr'
            refine ⟨?_, a1, ?_, a2, ?_, a3, ?_, d3⟩
            · conv_lhs => rw [e1, hr2, e2, hr4, e3]
            · simpa using hne1
            · simpa using hne2
            · simpa using hne3
        · exact absurd h (by simp)
    · exact absurd h (by simp)

theorem matchSemAt_nil : matchSemAt [] = none := rfl

theorem searchSem_of_matchAt (s : List Char) (r : List Char × List Char × List Char × List Char)
    (h : matchSemAt s = some r) : searchSem s = some r := by
  cases s with
  | nil => rw [matchSemAt_nil] at h; exact absurd h (by simp)
  | cons c cs => simp [searchSem, h]

theorem matchRcAt_shape (m n p k r : List Char) (hm : allDigits m = true)
    (hm0 : m.isEmpty = false) (hn : allDigits n = true) (hn0 : n.isEmpty = false)
    (hp : allDigits p = true) (hp0 : p.isEmpty = false) (hk : allDigits k = true)
    (hk0 : k.isEmpty = false) (hr : headNotDigit r = true) :
    matchRcAt (m ++ '.' :: (n ++ '.' :: (p ++ 'r' :: ('c' :: (k ++ r))))) =
      some (m, n, p, k, r) := by
  have hk' : k ≠ [] := fun e => by rw [e] at hk0; simp at hk0
  have h1 := matchSemAt_shape m n p ('r' :: ('c' :: (k ++ r))) hm hm0 hn hn0 hp hp0
    (headNotDigit_r _)
  have h2 := takeDigits_append k r hk hr
  simp [matchRcAt, h1, h2, hk']

theorem searchRc_of_matchAt (s : List Char)
    (r : List Char × List Char × List Char × List Char × List Char)
    (h : matchRcAt s = some r) : searchRc s = some r := by
  cases s with
  | nil => simp [matchRcAt, matchSemAt_nil] at h
  | cons c cs => simp [searchRc, h]

theorem matchRelAt_shape (m n p t : List Char) (hm : allDigits m = true)
    (hm0 : m.isEmpty = false) (hn : allDigits n = true) (hn0 : n.isEmpty = false)
    (hp : allDigits p = true) (hp0 : p.isEmpty = false) :
    matchRelAt (m ++ '.' :: (n ++ '.' :: (p ++ 'r' :: ('c' :: t)))) =
      some (m ++ '.' :: (n ++ '.' :: p)) := by
  have h1 := matchSemAt_shape m n p ('r' :: ('c' :: t)) hm hm0 hn hn0 hp hp0
    (headNotDigit_r _)
  simp [matchRelAt, h1]

theorem searchRel_of_matchAt (s cap : List Char) (h : matchRelAt s = some cap) :
    searchRel s = some cap := by
  cases s with
  | nil => simp [matchRelAt, matchSemAt_nil] at h
  | cons c cs => simp [searchRel, h]

/-! ## Lemmas about decimal rendering -/

theorem digitChar_isDigit (k : Nat) : isDigitC (digitChar k) = true := by
  unfold digitChar
  split
  · decide
  · split
    · decide
    · split
      · decide
      · split
        · decide
        · split
          · decide
          · split
            · decide
            · split
              · decide
              · split
                · decide
                · split <;> decide

theorem digitVal_digitChar (k : Nat) (hk : k < 10) : digitVal (digitChar k) = k := by
  interval_cases k <;> decide

theorem natToDigitsAux_all (fuel n : Nat) (h : n < fuel) :
    allDigits (natToDigitsAux fuel n) = true := by
  induction fuel generalizing n with
  | zero => omega
  | succ f ih =>
    by_cases h10 : n < 10
    · simp [natToDigitsAux, h10, allDigits, digitChar_isDigit]
    · have hdiv : n / 10 < f := by
        have h1 : 0 < n := by omega
        have := Nat.div_lt_self h1 (by omega : 1 < 10)
        omega
      rw [show natToDigitsAux (f + 1) n = natToDigitsAux f (n / 10) ++ [digitChar (n % 10)]
        from by simp [natToDigitsAux, h10]]
      rw [allDigits_append, ih (n / 10) hdiv]
      simp [allDigits, digitChar_isDigit]

theorem natToDigits_all (n : Nat) : allDigits (natToDigits n) = true :=
  natToDigitsAux_all (n + 1) n (Nat.lt_succ_self n)

theorem natToDigitsAux_ne_nil (fuel n : Nat) (h : n < fuel) :
    (natToDigitsAux fuel n).isEmpty = false := by
  cases fuel with
  | zero => omega
  | succ f =>
    by_cases h10 : n < 10
    · simp [natToDigitsAux, h10]
    · simp [natToDigitsAux, h10]

theorem natToDigits_ne_nil (n : Nat) : (natToDigits n).isEmpty = false :=
  natToDigitsAux_ne_nil (n + 1) n (Nat.lt_succ_self n)

theorem digitsToNat_append_singleton (ds : List Char) (c : Char) :
    digitsToNat (ds ++ [c]) = 10 * digitsToNat ds + digitVal c := by
  simp [digitsToNat, List.foldl_append]

theorem digitsToNat_natToDigitsAux (fuel n : Nat) (h : n < fuel) :
    digitsToNat (natToDigitsAux fuel n) = n := by
  induction fuel generalizing n with
  | zero => omega
  | succ f ih =>
    by_cases h10 : n < 10
    · simp only [natToDigitsAux, h10, if_true]
      simp [digitsToNat, digitVal_digitChar n h10]
    · have hdiv : n / 10 < f := by
        have h1 : 0 < n := by omega
        have := Nat.div_lt_self h1 (by omega : 1 < 10)
        omega
      simp only [natToDigitsAux, h10, if_false]
      rw [digitsToNat_append_singleton, ih (n / 10) hdiv,
        digitVal_digitChar (n % 10) (Nat.mod_lt n (by omega))]
      omega

theorem digitsToNat_natToDigits (n : Nat) : digitsToNat (natToDigits n) = n :=
  digitsToNat_natToDigitsAux (n + 1) n (Nat.lt_succ_self n)

theorem fmtSem_isEmpty (a b c : Nat) : (fmtSem a b c).isEmpty = false := by
  have := natToDigits_ne_nil a
  unfold fmtSem
  cases h : natToDigits a with
  | nil => rw [h] at this; simp at this
  | cons x xs => simp [h]

/-! ## Lemmas about substring containment -/

theorem startsWith_nil_needle (l : List Char) : startsWith l [] = true := by
  cases l <;> rfl

theorem hasSubstr_append_rc (a b : List Char) :
    hasSubstr (a ++ 'r' :: ('c' :: b)) ("rc".data) = true := by
  induction a with
  | nil =>
    show hasSubstr ('r' :: ('c' :: b)) ['r', 'c'] = true
    simp [hasSubstr, startsWith, startsWith_nil_needle]
  | cons c cs ih =>
    show hasSubstr (c :: (cs ++ 'r' :: ('c' :: b))) ['r', 'c'] = true
    simp only [hasSubstr, Bool.or_eq_true]
    exact Or.inr ih

theorem hasSubstr_rc_eq_false (s : List Char)
    (h : ∀ c ∈ s, isDigitC c = true ∨ c = '.') : hasSubstr s ("rc".data) = false := by
  induction s with
  | nil => rfl
  | cons c cs ih =>
    show hasSubstr (c :: cs) ['r', 'c'] = false
    have hc : (c == 'r') = false := by
      rcases h c (List.mem_cons_self c cs) with hd | hd
      · cases hcr : c == 'r'
        · rfl
        · rw [beq_iff_eq] at hcr; rw [hcr] at hd; exact absurd hd (by decide)
      · rw [hd]; decide
    simp only [hasSubstr, startsWith, hc, Bool.false_and, Bool.false_or]
    exact ih (fun x hx => h x (List.mem_cons_of_mem c hx))

theorem sem_chars (m n p : List Char) (hm : allDigits m = true) (hn : allDigits n = true)
    (hp : allDigits p = true) :
    ∀ c ∈ m ++ '.' :: (n ++ '.' :: p), isDigitC c = true ∨ c = '.' := by
  simp only [allDigits, List.all_eq_true] at hm hn hp
  intro c hc
  simp only [List.mem_append, List.mem_cons] at hc
  rcases hc with hc | hc | hc
  · exact Or.inl (hm c hc)
  · exact Or.inr hc
  · rcases hc with hc | hc | hc
    · exact Or.inl (hn c hc)
    · exact Or.inr hc
    · exact Or.inl (hp c hc)

/-! ## Lemmas about the shape predicates -/

theorem isSemVerOpt_exact (m n p : List Char) (hm : allDigits m = true)
    (hm0 : m.isEmpty = false) (hn : allDigits n = true) (hn0 : n.isEmpty = false)
    (hp : allDigits p = true) (hp0 : p.isEmpty = false) :
    isSemVerOpt (m ++ '.' :: (n ++ '.' :: p)) = true := by
  simp [isSemVerOpt, matchSemAt_exact m n p hm hm0 hn hn0 hp hp0]

theorem isSemVerOpt_rc (m n p ds : List Char) (hm : allDigits m = true)
    (hm0 : m.isEmpty = false) (hn : allDigits n = true) (hn0 : n.isEmpty = false)
    (hp : allDigits p = true) (hp0 : p.isEmpty = false) (hds : allDigits ds = true)
    (hds0 : ds.isEmpty = false) :
    isSemVerOpt (m ++ '.' :: (n ++ '.' :: (p ++ 'r' :: ('c' :: ds)))) = true := by
  have h1 := matchSemAt_shape m n p ('r' :: ('c' :: ds)) hm hm0 hn hn0 hp hp0
    (headNotDigit_r _)
  simp [isSemVerOpt, h1, isRcSuffix, hds, hds0]

theorem semStrict_spec (s : List Char) (h : semStrict s = true) :
    ∃ m n p, s = m ++ '.' :: (n ++ '.' :: p) ∧ allDigits m = true ∧ m.isEmpty = false ∧
      allDigits n = true ∧ n.isEmpty = false ∧ allDigits p = true ∧ p.isEmpty = false := by
  unfold semStrict at h
  split at h
  · rename_i m n p r hmt
    rw [List.isEmpty_iff] at h
    subst h
    obtain ⟨hs, hm, hm0, hn, hn0, hp, hp0, _⟩ := matchSemAt_spec s m n p [] hmt
    exact ⟨m, n, p, by simpa using hs, hm, hm0, hn, hn0, hp, hp0⟩
  · exact absurd h (by simp)

theorem semStrict_exact (m n p : List Char) (hm : allDigits m = true)
    (hm0 : m.isEmpty = false) (hn : allDigits n = true) (hn0 : n.isEmpty = false)
    (hp : allDigits p = true) (hp0 : p.isEmpty = false) :
    semStrict (m ++ '.' :: (n ++ '.' :: p)) = true := by
  simp [semStrict, matchSemAt_exact m n p hm hm0 hn hn0 hp hp0]

theorem semStrict_fmtSem (a b c : Nat) : semStrict (fmtSem a b c) = true :=
  semStrict_exact _ _ _ (natToDigits_all a) (natToDigits_ne_nil a) (natToDigits_all b)
    (natToDigits_ne_nil b) (natToDigits_all c) (natToDigits_ne_nil c)

theorem isSemVerOpt_fmtSem (a b c : Nat) : isSemVerOpt (fmtSem a b c) = true :=
  isSemVerOpt_exact _ _ _ (natToDigits_all a) (natToDigits_ne_nil a) (natToDigits_all b)
    (natToDigits_ne_nil b) (natToDigits_all c) (natToDigits_ne_nil c)

theorem isSemVerOpt_append_rc (s ds : List Char) (hs : semStrict s = true)
    (hds : allDigits ds = true) (hds0 : ds.isEmpty = false) :
    isSemVerOpt (s ++ 'r' :: ('c' :: ds)) = true := by
  obtain ⟨m, n, p, hshape, hm, hm0, hn, hn0, hp, hp0⟩ := semStrict_spec s hs
  subst hshape
  have := isSemVerOpt_rc m n p ds hm hm0 hn hn0 hp hp0 hds hds0
  simpa using this

theorem semStrict_no_rc (s : List Char) (h : semStrict s = true) :
    hasSubstr s ("rc".data) = false := by
  obtain ⟨m, n, p, hshape, hm, _, hn, _, hp, _⟩ := semStrict_spec s h
  subst hshape
  exact hasSubstr_rc_eq_false _ (sem_chars m n p hm hn hp)

theorem isRcSuffix_spec (r : List Char) (h : isRcSuffix r = true) :
    ∃ ds, r = 'r' :: ('c' :: ds) ∧ allDigits ds = true ∧ ds.isEmpty = false := by
  unfold isRcSuffix at h
  split at h
  · rename_i ds
    rw [Bool.and_eq_true] at h
    exact ⟨ds, rfl, h.2, by simpa using h.1⟩
  · exact absurd h (by simp)

theorem semStrict_of_no_rc (s : List Char) (h1 : isSemVerOpt s = true)
    (h2 : hasSubstr s ("rc".data) = false) : semStrict s = true := by
  unfold isSemVerOpt at h1
  split at h1
  · rename_i m n p r hmt
    rcases Bool.or_eq_true _ _ ▸ h1 with he | hrc
    · simp [semStrict, hmt, he]
    · obtain ⟨ds, rfl, _, _⟩ := isRcSuffix_spec r hrc
      obtain ⟨hs, _, _, _, _, _, _, _⟩ := matchSemAt_spec s m n p _ hmt
      exfalso
      rw [hs] at h2
      have he2 : m ++ '.' :: (n ++ '.' :: (p ++ 'r' :: ('c' :: ds))) =
          (m ++ '.' :: (n ++ '.' :: p)) ++ 'r' :: ('c' :: ds) := by simp
      rw [he2, hasSubstr_append_rc] at h2
      exact absurd h2 (by simp)
  · exact absurd h1 (by simp)

theorem matchRelAt_spec (s cap : List Char) (h : matchRelAt s = some cap) :
    ∃ m n p, cap = m ++ '.' :: (n ++ '.' :: p) ∧ allDigits m = true ∧ m.isEmpty = false ∧
      allDigits n = true ∧ n.isEmpty = false ∧ allDigits p = true ∧ p.isEmpty = false := by
  cases hmt : matchSemAt s with
  | none => unfold matchRelAt at h; rw [hmt] at h; simp at h
  | some q =>
    obtain ⟨m, n, p, r⟩ := q
    simp only [matchRelAt, hmt] at h
    split at h
    · rw [Option.some.injEq] at h
      obtain ⟨_, hm, hm0, hn, hn0, hp, hp0, _⟩ := matchSemAt_spec s m n p _ hmt
      exact ⟨m, n, p, h.symm, hm, hm0, hn, hn0, hp, hp0⟩
    · exact absurd h (by simp)

theorem searchRel_isSemVerOpt (s cap : List Char) (h : searchRel s = some cap) :
    isSemVerOpt cap = true := by
  induction s with
  | nil => simp [searchRel] at h
  | cons c cs ih =>
    unfold searchRel at h
    split at h
    · rename_i cap' hm
      rw [Option.some.injEq] at h
      subst h
      obtain ⟨m, n, p, hshape, hm', hm0, hn, hn0, hp, hp0⟩ := matchRelAt_spec _ cap' hm
      rw [hshape]
      exact isSemVerOpt_exact m n p hm' hm0 hn hn0 hp hp0
    · exact ih h

/-! ## Lemmas about the substitution pass -/

theorem processFiles_cons (old newV : List Char) (fuel : Nat) (t : Target) (ts : List Target) :
    processFiles old newV fuel (t :: ts) =
      (match processTarget old newV fuel t with
       | .ok t' =>
         (Eff.readTracked t.path :: Eff.writeTracked t.path :: (processFiles old newV fuel ts).1,
          match (processFiles old newV fuel ts).2 with
          | .ok fs => .ok (t' :: fs)
          | .err e fs => .err e (t' :: fs)
          | .hang fs => .hang (t' :: fs))
       | .err e => ([Eff.readTracked t.path], .err e (t :: ts))
       | .hang => ([Eff.readTracked t.path], .hang (t :: ts))) := rfl

theorem processTarget_err_vnf (old newV : List Char) (fuel : Nat) (t : Target) (e : CmdErr)
    (h : processTarget old newV fuel t = .err e) : e = CmdErr.versionNotFound old t.path := by
  cases t with
  | plain p c =>
    simp only [processTarget] at h
    split at h
    · simp at h
    · rw [PResult.err.injEq] at h
      rw [← h]
      rfl
  | search p a b c =>
    simp only [processTarget] at h
    split at h <;> simp at h

theorem processFiles_err_vnf (old newV : List Char) (fuel : Nat) (ts : List Target)
    (evs : List Eff) (e : CmdErr) (fs : List Target)
    (h : processFiles old newV fuel ts = (evs, .err e fs)) :
    ∃ ov pp, e = CmdErr.versionNotFound ov pp := by
  induction ts generalizing evs fs with
  | nil => simp [processFiles] at h
  | cons t ts ih =>
    rw [processFiles_cons] at h
    split at h
    · rename_i t' hpt
      rcases hrest : processFiles old newV fuel ts with ⟨evs', r'⟩
      rw [hrest] at h
      dsimp only at h
      cases r' with
      | ok fs' => simp at h
      | err e' fs' =>
        simp only [Prod.mk.injEq, FilesResult.err.injEq] at h
        obtain ⟨-, he, -⟩ := h
        subst he
        exact ih evs' fs' (by rw [hrest])
      | hang fs' => simp at h
    · rename_i e' hpt
      simp only [Prod.mk.injEq, FilesResult.err.injEq] at h
      obtain ⟨-, he, -⟩ := h
      subst he
      exact ⟨old, t.path, processTarget_err_vnf old newV fuel t e' hpt⟩
    · simp at h

theorem processFiles_append (old newV : List Char) (fuel : Nat) (ts₁ ts₂ : List Target)
    (evs₁ : List Eff) (fs₁ : List Target)
    (h : processFiles old newV fuel ts₁ = (evs₁, .ok fs₁)) :
    processFiles old newV fuel (ts₁ ++ ts₂) =
      (evs₁ ++ (processFiles old newV fuel ts₂).1,
       match (processFiles old newV fuel ts₂).2 with
       | .ok fs => .ok (fs₁ ++ fs)
       | .err e fs => .err e (fs₁ ++ fs)
       | .hang fs => .hang (fs₁ ++ fs)) := by
  induction ts₁ generalizing evs₁ fs₁ with
  | nil =>
    simp only [processFiles, Prod.mk.injEq, FilesResult.ok.injEq] at h
    obtain ⟨he, hf⟩ := h
    subst he hf
    rcases hpf : processFiles old newV fuel ts₂ with ⟨evs, r⟩
    simp only [List.nil_append, hpf]
    cases r <;> simp
  | cons t ts ih =>
    rw [processFiles_cons] at h
    split at h
    · rename_i t' hpt
      rcases hrest : processFiles old newV fuel ts with ⟨evs', r'⟩
      rw [hrest] at h
      dsimp only at h
      cases r' with
      | ok fs' =>
        simp only [Prod.mk.injEq, FilesResult.ok.injEq] at h
        obtain ⟨he, hf⟩ := h
        subst he hf
        have ihr := ih evs' fs' (by rw [hrest])
        show processFiles old newV fuel (t :: (ts ++ ts₂)) = _
        rw [processFiles_cons, hpt, ihr]
        rcases hpf : processFiles old newV fuel ts₂ with ⟨evs₂, r₂⟩
        dsimp only
        cases r₂ <;> simp
      | err e' fs' => simp at h
      | hang fs' => simp at h
    · rename_i e' hpt
      simp at h
    · simp at h

theorem replaceVersionStrings_ok (cfg : Config) (files : List Target) (v : List Char)
    (semOpt : Option (List Char)) (fuel : Nat) (evs : List Eff) (s : SysState)
    (h : replaceVersionStrings cfg files v semOpt fuel = (evs, RunResult.ok s)) :
    s.config.current_version = v ∧
      s.config.current_semantic_version = newSemValue cfg semOpt := by
  rcases hpf : processFiles cfg.current_version v fuel files with ⟨evs', r'⟩
  unfold replaceVersionStrings at h
  rw [hpf] at h
  dsimp only at h
  cases r' with
  | ok fs =>
    simp only [Prod.mk.injEq, RunResult.ok.injEq] at h
    obtain ⟨-, hs⟩ := h
    subst hs
    exact ⟨rfl, rfl⟩
  | err e fs => simp at h
  | hang fs => simp at h

/-! ## Lemmas about the replacement loop and the transition -/

theorem replaceLoop_no_match (preL sufL newV : List Char) (fuel : Nat) (content : List Char)
    (h : searchTemplate preL sufL content = none) :
    replaceLoop preL sufL newV fuel content = some content := by
  cases fuel <;> · unfold replaceLoop; rw [h]

theorem replaceLoop_leftmost (preL sufL newV : List Char) :
    ∀ (fuel : Nat) (content r : List Char),
      replaceLoop preL sufL newV fuel content = some r →
      leftmostCapIsNew preL sufL newV r = true := by
  intro fuel
  induction fuel with
  | zero =>
    intro content r h
    unfold replaceLoop at h
    split at h
    · rename_i hst
      rw [Option.some.injEq] at h
      subst h
      simp [leftmostCapIsNew, hst]
    · rename_i b cap rest hst
      split at h
      · rename_i hcap
        rw [Option.some.injEq] at h
        subst h
        simp [leftmostCapIsNew, hst, hcap]
      · simp at h
  | succ f ih =>
    intro content r h
    unfold replaceLoop at h
    split at h
    · rename_i hst
      rw [Option.some.injEq] at h
      subst h
      simp [leftmostCapIsNew, hst]
    · rename_i b cap rest hst
      split at h
      · rename_i hcap
        rw [Option.some.injEq] at h
        subst h
        simp [leftmostCapIsNew, hst, hcap]
      · exact ih _ _ h

theorem bumpTransition_rc_usage (cfg : Config) :
    bumpTransition cfg BumpPart.rc true = Except.error (CmdErr.usage rcUsageMsg) := by
  simp [bumpTransition]

theorem bumpTransition_major (cfg : Config) (m n p r : List Char)
    (h : searchSem cfg.current_semantic_version = some (m, n, p, r)) (flag : Bool) :
    bumpTransition cfg BumpPart.major flag =
      Except.ok ((if flag then fmtSem (digitsToNat m + 1) 0 0 ++ "rc1".data
                  else fmtSem (digitsToNat m + 1) 0 0),
                 fmtSem (digitsToNat m + 1) 0 0) := by
  cases flag <;> simp [bumpTransition, h]

theorem bumpTransition_minor (cfg : Config) (m n p r : List Char)
    (h : searchSem cfg.current_semantic_version = some (m, n, p, r)) (flag : Bool) :
    bumpTransition cfg BumpPart.minor flag =
      Except.ok ((if flag then fmtSem (digitsToNat m) (digitsToNat n + 1) 0 ++ "rc1".data
                  else fmtSem (digitsToNat m) (digitsToNat n + 1) 0),
                 fmtSem (digitsToNat m) (digitsToNat n + 1) 0) := by
  cases flag <;> simp [bumpTransition, h]

theorem bumpTransition_patch (cfg : Config) (m n p r : List Char)
    (h : searchSem cfg.current_semantic_version = some (m, n, p, r)) (flag : Bool) :
    bumpTransition cfg BumpPart.patch flag =
      Except.ok ((if flag then fmtSem (digitsToNat m) (digitsToNat n) (digitsToNat p + 1) ++ "rc1".data
                  else fmtSem (digitsToNat m) (digitsToNat n) (digitsToNat p + 1)),
                 fmtSem (digitsToNat m) (digitsToNat n) (digitsToNat p + 1)) := by
  cases flag <;> simp [bumpTransition, h]

theorem bumpTransition_rc_fresh (cfg : Config) (m n p r : List Char)
    (h : searchSem cfg.current_semantic_version = some (m, n, p, r))
    (hno : hasSubstr cfg.current_version ("rc".data) = false) :
    bumpTransition cfg BumpPart.rc false =
      Except.ok (cfg.current_version ++ "rc1".data,
                 fmtSem (digitsToNat m) (digitsToNat n) (digitsToNat p)) := by
  simp [bumpTransition, h, hno]

theorem bumpTransition_rc_again (cfg : Config) (m n p r : List Char)
    (h : searchSem cfg.current_semantic_version = some (m, n, p, r))
    (hyes : hasSubstr cfg.current_version ("rc".data) = true)
    (a b c k rest : List Char)
    (hrc : searchRc cfg.current_version = some (a, b, c, k, rest)) :
    bumpTransition cfg BumpPart.rc false =
      Except.ok (cfg.current_semantic_version ++ 'r' :: ('c' :: natToDigits (digitsToNat k + 1)),
                 fmtSem (digitsToNat m) (digitsToNat n) (digitsToNat p)) := by
  simp [bumpTransition, h, hyes, hrc]

theorem runBump_step (cfg : Config) (files : List Target) (part : BumpPart) (flag : Bool)
    (gitHash : List Char) (fuel : Nat) (hp : part ≠ BumpPart.commit_hash)
    (v sem : List Char) (ht : bumpTransition cfg part flag = Except.ok (v, sem)) :
    runBump cfg files part flag gitHash fuel =
      (Eff.readConfigFile :: (replaceVersionStrings cfg files v (some sem) fuel).1,
       (replaceVersionStrings cfg files v (some sem) fuel).2) := by
  simp [runBump, hp, ht]

theorem runBump_transition_err (cfg : Config) (files : List Target) (part : BumpPart)
    (flag : Bool) (gitHash : List Char) (fuel : Nat) (hp : part ≠ BumpPart.commit_hash)
    (e : CmdErr) (ht : bumpTransition cfg part flag = Except.error e) :
    runBump cfg files part flag gitHash fuel =
      ([Eff.readConfigFile], RunResult.err e ⟨cfg, files⟩) := by
  simp [runBump, hp, ht]

theorem runBump_commit_flag (cfg : Config) (files : List Target) (gitHash : List Char)
    (fuel : Nat) :
    runBump cfg files BumpPart.commit_hash true gitHash fuel =
      ([Eff.readConfigFile], RunResult.err (CmdErr.usage commitHashUsageMsg) ⟨cfg, files⟩) := by
  simp [runBump]

theorem runBump_commit (cfg : Config) (files : List Target) (gitHash : List Char)
    (fuel : Nat) :
    runBump cfg files BumpPart.commit_hash false gitHash fuel =
      (Eff.readConfigFile :: (replaceVersionStrings cfg files gitHash none fuel).1,
       (replaceVersionStrings cfg files gitHash none fuel).2) := by
  simp [runBump]

theorem runBump_sem_ok (cfg : Config) (files : List Target) (part : BumpPart) (flag : Bool)
    (gitHash : List Char) (fuel : Nat) (evs : List Eff) (s : SysState) (v sem : List Char)
    (hp : part ≠ BumpPart.commit_hash) (ht : bumpTransition cfg part flag = Except.ok (v, sem))
    (hsem : sem.isEmpty = false)
    (h : runBump cfg files part flag gitHash fuel = (evs, RunResult.ok s)) :
    s.config.current_version = v ∧ s.config.current_semantic_version = sem := by
  rw [runBump_step cfg files part flag gitHash fuel hp v sem ht] at h
  rcases hrvs : replaceVersionStrings cfg files v (some sem) fuel with ⟨evs', r'⟩
  rw [hrvs] at h
  dsimp only at h
  rw [Prod.mk.injEq] at h
  obtain ⟨-, hr⟩ := h
  have := replaceVersionStrings_ok cfg files v (some sem) fuel evs' s (by rw [hrvs, hr])
  refine ⟨this.1, ?_⟩
  rw [this.2]
  simp [newSemValue, hsem]

theorem runRelease_no_rc (cfg : Config) (files : List Target) (fuel : Nat)
    (h : searchRc cfg.current_version = none) :
    runRelease cfg files fuel =
      ([Eff.readConfigFile], RunResult.err CmdErr.notAReleaseCandidate ⟨cfg, files⟩) := by
  simp [runRelease, h]

theorem runRelease_step (cfg : Config) (files : List Target) (fuel : Nat)
    (q : List Char × List Char × List Char × List Char × List Char)
    (hrc : searchRc cfg.current_version = some q) (cap : List Char)
    (hrel : searchRel cfg.current_version = some cap) :
    runRelease cfg files fuel =
      (Eff.readConfigFile :: (replaceVersionStrings cfg files cap (some cap) fuel).1,
       (replaceVersionStrings cfg files cap (some cap) fuel).2) := by
  simp [runRelease, hrc, hrel]

theorem runRelease_ok (cfg : Config) (files : List Target) (fuel : Nat)
    (q : List Char × List Char × List Char × List Char × List Char)
    (hrc : searchRc cfg.current_version = some q) (cap : List Char)
    (hrel : searchRel cfg.current_version = some cap) (hcap : cap.isEmpty = false)
    (evs : List Eff) (s : SysState)
    (h : runRelease cfg files fuel = (evs, RunResult.ok s)) :
    s.config.current_version = cap ∧ s.config.current_semantic_version = cap := by
  rw [runRelease_step cfg files fuel q hrc cap hrel] at h
  rcases hrvs : replaceVersionStrings cfg files cap (some cap) fuel with ⟨evs', r'⟩
  rw [hrvs] at h
  dsimp only at h
  rw [Prod.mk.injEq] at h
  obtain ⟨-, hr⟩ := h
  have := replaceVersionStrings_ok cfg files cap (some cap) fuel evs' s (by rw [hrvs, hr])
  refine ⟨this.1, ?_⟩
  rw [this.2]
  simp [newSemValue, hcap]

theorem isSemVerOpt_ne_nil (s : List Char) (h : isSemVerOpt s = true) :
    s.isEmpty = false := by
  cases s with
  | nil => exact absurd h (by decide)
  | cons c cs => rfl

theorem validShape_fmt_opt (a b c : Nat) (flag : Bool) :
    validShape (if flag then fmtSem a b c ++ "rc1".data else fmtSem a b c) = true := by
  cases flag
  · simp [validShape, isSemVerOpt_fmtSem]
  · rw [if_pos rfl, show ("rc1".data : List Char) = 'r' :: ('c' :: ['1']) from rfl]
    simp [validShape,
      isSemVerOpt_append_rc (fmtSem a b c) ['1'] (semStrict_fmtSem a b c) (by decide) (by decide)]

theorem runRelease_crash (cfg : Config) (files : List Target) (fuel : Nat)
    (q : List Char × List Char × List Char × List Char × List Char)
    (hrc : searchRc cfg.current_version = some q)
    (hrel : searchRel cfg.current_version = none) :
    runRelease cfg files fuel =
      ([Eff.readConfigFile], RunResult.err CmdErr.crash ⟨cfg, files⟩) := by
  simp [runRelease, hrc, hrel]

theorem replaceVersionStrings_err (cfg : Config) (files : List Target) (v : List Char)
    (semOpt : Option (List Char)) (fuel : Nat) (evs : List Eff) (e : CmdErr) (s : SysState)
    (h : replaceVersionStrings cfg files v semOpt fuel = (evs, RunResult.err e s)) :
    (∃ ov pp, e = CmdErr.versionNotFound ov pp) ∧ s.config = cfg := by
  rcases hpf : processFiles cfg.current_version v fuel files with ⟨evs', r'⟩
  unfold replaceVersionStrings at h
  rw [hpf] at h
  dsimp only at h
  cases r' with
  | ok fs => simp at h
  | err e' fs =>
    simp only [Prod.mk.injEq, RunResult.err.injEq] at h
    obtain ⟨-, he, hs⟩ := h
    subst he
    refine ⟨processFiles_err_vnf _ _ _ _ _ _ _ (by rw [hpf]), ?_⟩
    rw [← hs]
  | hang fs => simp at h

theorem tryMatchAt_hashLike (x : List Char) :
    tryMatchAt [] [] (hashLike ++ x) = some (hashLike, x) := by
  unfold tryMatchAt
  rw [if_pos (by rw [startsWith_nil_needle])]
  simp only [List.length_nil, List.drop_zero]
  unfold groupCandidates
  have hsem : semCandidates (hashLike ++ x) = [] := by
    rw [show hashLike ++ x = 'a' :: ("aaaaaaaaaaaaaaaaaaaaaaaaaaaaaaaaaaaaaaa".data ++ x)
      from rfl]
    rw [semCandidates, takeDigits_cons_nondigit 'a' _ (by decide)]
    rfl
  have hhash : hashCandidate (hashLike ++ x) = [(hashLike, x)] := by
    rw [hashCandidate]
    have ht : (hashLike ++ x).take 40 = hashLike := by
      rw [show (40 : Nat) = hashLike.length from rfl]
      exact List.take_left hashLike x
    have hd : (hashLike ++ x).drop 40 = x := by
      rw [show (40 : Nat) = hashLike.length from rfl]
      exact List.drop_left hashLike x
    rw [ht, hd]
    split
    · rfl
    · rename_i hcond
      exact absurd (by decide) hcond
  rw [hsem, hhash, List.nil_append]
  exact List.find?_cons_of_pos _ (startsWith_nil_needle x)

theorem searchTemplate_head (preL sufL : List Char) (s cap rest : List Char)
    (hne : s ≠ []) (h : tryMatchAt preL sufL s = some (cap, rest)) :
    searchTemplate preL sufL s = some (preL, cap, rest) := by
  cases s with
  | nil => exact absurd rfl hne
  | cons c cs =>
    unfold searchTemplate
    rw [h]

theorem replaceLoop_found_zero (preL sufL newV content b cap rest : List Char)
    (h : searchTemplate preL sufL content = some (b, cap, rest)) (hne : cap ≠ newV) :
    replaceLoop preL sufL newV 0 content = none := by
  unfold replaceLoop
  rw [h]
  simp [hne]

theorem replaceLoop_found_succ (preL sufL newV content b cap rest : List Char) (f : Nat)
    (h : searchTemplate preL sufL content = some (b, cap, rest)) (hne : cap ≠ newV) :
    replaceLoop preL sufL newV (f + 1) content =
      replaceLoop preL sufL newV f (b ++ newV ++ rest) := by
  unfold replaceLoop
  rw [h]
  dsimp only
  rw [if_neg hne]
  conv_rhs => rw [← replaceLoop.eq_def]

theorem replaceLoop_hash_diverges (fuel : Nat) :
    ∀ j : Nat, replaceLoop [] [] (hashLike ++ "rc1".data) fuel (hashLike ++ rcReps j) = none := by
  induction fuel with
  | zero =>
    intro j
    exact replaceLoop_found_zero [] [] _ _ [] hashLike (rcReps j)
      (searchTemplate_head [] [] _ _ _ (by simp [hashLike]) (tryMatchAt_hashLike (rcReps j)))
      (by decide)
  | succ f ih =>
    intro j
    rw [replaceLoop_found_succ [] [] _ _ [] hashLike (rcReps j) f
      (searchTemplate_head [] [] _ _ _ (by simp [hashLike]) (tryMatchAt_hashLike (rcReps j)))
      (by decide)]
    have hsp : ([] : List Char) ++ (hashLike ++ "rc1".data) ++ rcReps j =
        hashLike ++ rcReps (j + 1) := by
      show (hashLike ++ "rc1".data) ++ rcReps j = hashLike ++ ("rc1".data ++ rcReps j)
      simp
    rw [hsp]
    exact ih (j + 1)

/-! ## Claim theorems -/

/-- C3: for every state whose `current_semantic_version` parses (by the
source's regex search) into the integers M = `digitsToNat m`,
N = `digitsToNat n`, P = `digitsToNat p`, bumping `major` yields semantic
version (M+1).0.0, bumping `minor` yields M.(N+1).0, bumping `patch` yields
M.N.(P+1) — each increments only its own slot and zeroes the trailing
slots — and in each case, without the release-candidate modifier, the new
`current_version` equals the new semantic version. -/
theorem C3_semantic_bumps (cfg : Config) (m n p r : List Char)
    (h : searchSem cfg.current_semantic_version = some (m, n, p, r)) :
    bumpTransition cfg BumpPart.major false =
      Except.ok (fmtSem (digitsToNat m + 1) 0 0, fmtSem (digitsToNat m + 1) 0 0) ∧
    bumpTransition cfg BumpPart.minor false =
      Except.ok (fmtSem (digitsToNat m) (digitsToNat n + 1) 0,
                 fmtSem (digitsToNat m) (digitsToNat n + 1) 0) ∧
    bumpTransition cfg BumpPart.patch false =
      Except.ok (fmtSem (digitsToNat m) (digitsToNat n) (digitsToNat p + 1),
                 fmtSem (digitsToNat m) (digitsToNat n) (digitsToNat p + 1)) := by
  refine ⟨?_, ?_, ?_⟩
  · simpa using bumpTransition_major cfg m n p r h false
  · simpa using bumpTransition_minor cfg m n p r h false
  · simpa using bumpTransition_patch cfg m n p r h false

/-- C3 witness: the hypothesis holds at the sample state `1.2.3` and the
major bump there evaluates to `2.0.0`. -/
theorem C3_semantic_bumps_witness :
    searchSem ("1.2.3".data) = some (['1'], ['2'], ['3'], []) ∧
    bumpTransition ⟨"1.2.3".data, "1.2.3".data⟩ BumpPart.major false =
      Except.ok ("2.0.0".data, "2.0.0".data) := by
  refine ⟨by decide, ?_⟩
  have h := (C3_semantic_bumps ⟨"1.2.3".data, "1.2.3".data⟩ ['1'] ['2'] ['3'] [] (by decide)).1
  rw [h]
  decide

/-- C8: for every major, minor or patch bump with the release-candidate
modifier set, whenever the command succeeds the stored `current_version`
becomes the bumped semantic version with `rc1` appended while
`current_semantic_version` becomes the clean bumped `M.N.P` value. -/
theorem C8_release_candidate_modifier (cfg : Config) (files : List Target)
    (gitHash : List Char) (fuel : Nat) (m n p r : List Char)
    (h : searchSem cfg.current_semantic_version = some (m, n, p, r))
    (part : BumpPart) (evs : List Eff) (s : SysState)
    (hrun : runBump cfg files part true gitHash fuel = (evs, RunResult.ok s)) :
    (part = BumpPart.major →
      s.config.current_version = fmtSem (digitsToNat m + 1) 0 0 ++ "rc1".data ∧
      s.config.current_semantic_version = fmtSem (digitsToNat m + 1) 0 0) ∧
    (part = BumpPart.minor →
      s.config.current_version = fmtSem (digitsToNat m) (digitsToNat n + 1) 0 ++ "rc1".data ∧
      s.config.current_semantic_version = fmtSem (digitsToNat m) (digitsToNat n + 1) 0) ∧
    (part = BumpPart.patch →
      s.config.current_version = fmtSem (digitsToNat m) (digitsToNat n) (digitsToNat p + 1) ++ "rc1".data ∧
      s.config.current_semantic_version = fmtSem (digitsToNat m) (digitsToNat n) (digitsToNat p + 1)) := by
  refine ⟨?_, ?_, ?_⟩ <;> intro hpart <;> subst hpart
  · have ht := bumpTransition_major cfg m n p r h true
    rw [if_pos rfl] at ht
    exact runBump_sem_ok cfg files _ true gitHash fuel evs s _ _ (by decide) ht
      (fmtSem_isEmpty _ _ _) hrun
  · have ht := bumpTransition_minor cfg m n p r h true
    rw [if_pos rfl] at ht
    exact runBump_sem_ok cfg files _ true gitHash fuel evs s _ _ (by decide) ht
      (fmtSem_isEmpty _ _ _) hrun
  · have ht := bumpTransition_patch cfg m n p r h true
    rw [if_pos rfl] at ht
    exact runBump_sem_ok cfg files _ true gitHash fuel evs s _ _ (by decide) ht
      (fmtSem_isEmpty _ _ _) hrun

/-- C8 witness: `bump patch --release-candidate` on the sample state `0.0.0`
with no tracked files stores `0.0.1rc1` with semantic `0.0.1`. -/
theorem C8_release_candidate_modifier_witness :
    (⟨⟨"0.0.1rc1".data, "0.0.1".data⟩, ([] : List Target)⟩ : SysState).config.current_version =
      fmtSem (digitsToNat ['0']) (digitsToNat ['0']) (digitsToNat ['0'] + 1) ++ "rc1".data ∧
    (⟨⟨"0.0.1rc1".data, "0.0.1".data⟩, ([] : List Target)⟩ : SysState).config.current_semantic_version =
      fmtSem (digitsToNat ['0']) (digitsToNat ['0']) (digitsToNat ['0'] + 1) :=
  (C8_release_candidate_modifier ⟨"0.0.0".data, "0.0.0".data⟩ [] [] 2 ['0'] ['0'] ['0'] []
    (by decide) BumpPart.patch [Eff.readConfigFile, Eff.writeConfigFile]
    ⟨⟨"0.0.1rc1".data, "0.0.1".data⟩, []⟩ (by decide)).2.2 rfl

/-- C1 (amended): for every state whose `current_semantic_version` is a
strict `M.N.P` in canonical decimal form (each component equal to the
decimal rendering of its value): bumping `rc` on a `current_version` that
contains no `rc` produces `current_version ++ "rc1"` with the semantic
version unchanged; bumping `rc` on a `current_version` of the strict shape
`a.b.c` followed by a trailing rc counter `k` produces `M.N.P ++ "rc" ++
(k+1)` — the `M.N.P` parsed from `current_semantic_version` — with the
semantic version unchanged. -/
theorem C1_rc_bump_amended (cfg : Config) (m n p : List Char)
    (hshape : cfg.current_semantic_version = m ++ '.' :: (n ++ '.' :: p))
    (hm : allDigits m = true) (hm0 : m.isEmpty = false)
    (hn : allDigits n = true) (hn0 : n.isEmpty = false)
    (hp : allDigits p = true) (hp0 : p.isEmpty = false)
    (hcm : natToDigits (digitsToNat m) = m)
    (hcn : natToDigits (digitsToNat n) = n)
    (hcp : natToDigits (digitsToNat p) = p) :
    (hasSubstr cfg.current_version ("rc".data) = false →
      bumpTransition cfg BumpPart.rc false =
        Except.ok (cfg.current_version ++ "rc1".data, cfg.current_semantic_version)) ∧
    (∀ a b c k : List Char, allDigits a = true → a.isEmpty = false →
      allDigits b = true → b.isEmpty = false → allDigits c = true → c.isEmpty = false →
      allDigits k = true → k.isEmpty = false →
      cfg.current_version = a ++ '.' :: (b ++ '.' :: (c ++ 'r' :: ('c' :: k))) →
      bumpTransition cfg BumpPart.rc false =
        Except.ok ((m ++ '.' :: (n ++ '.' :: p)) ++ 'r' :: ('c' :: natToDigits (digitsToNat k + 1)),
                   cfg.current_semantic_version)) := by
  have hsearch : searchSem cfg.current_semantic_version = some (m, n, p, []) :=
    searchSem_of_matchAt _ _ (by rw [hshape]; exact matchSemAt_exact m n p hm hm0 hn hn0 hp hp0)
  have hfmt : fmtSem (digitsToNat m) (digitsToNat n) (digitsToNat p) =
      cfg.current_semantic_version := by
    unfold fmtSem
    rw [hcm, hcn, hcp, ← hshape]
  constructor
  · intro hno
    rw [bumpTransition_rc_fresh cfg m n p [] hsearch hno, hfmt]
  · intro a b c k ha ha0 hb hb0 hc hc0 hk hk0 hcv
    have hyes : hasSubstr cfg.current_version ("rc".data) = true := by
      rw [hcv, show a ++ '.' :: (b ++ '.' :: (c ++ 'r' :: ('c' :: k))) =
        (a ++ '.' :: (b ++ '.' :: c)) ++ 'r' :: ('c' :: k) from by simp]
      exact hasSubstr_append_rc _ _
    have hsrc : searchRc cfg.current_version = some (a, b, c, k, []) := by
      apply searchRc_of_matchAt
      rw [hcv]
      have := matchRcAt_shape a b c k [] ha ha0 hb hb0 hc hc0 hk hk0 rfl
      simpa using this
    rw [bumpTransition_rc_again cfg m n p [] hsearch hyes a b c k [] hsrc, hfmt, hshape]

/-- C1 counterexample: with the leading-zero state `01.2.3` (accepted by the
config validation), bumping `rc` produces new version `01.2.3rc1` but
rewrites `current_semantic_version` to the canonical `1.2.3`, so the
semantic version does not stay unchanged as the claim requires. -/
theorem C1_counterexample :
    bumpTransition ⟨"01.2.3".data, "01.2.3".data⟩ BumpPart.rc false =
      Except.ok ("01.2.3rc1".data, "1.2.3".data) ∧
    ("1.2.3".data : List Char) ≠ "01.2.3".data := by
  exact ⟨by decide, by decide⟩

/-- C1 witness: the amended claim at the canonical state `1.2.3` with
`current_version = 1.2.3rc7`: the rc counter is bumped to `1.2.3rc8` with
the semantic version unchanged. -/
theorem C1_rc_bump_amended_witness :
    bumpTransition ⟨"1.2.3rc7".data, "1.2.3".data⟩ BumpPart.rc false =
      Except.ok ("1.2.3rc8".data, "1.2.3".data) := by
  have h := (C1_rc_bump_amended ⟨"1.2.3rc7".data, "1.2.3".data⟩ ['1'] ['2'] ['3']
    (by decide) (by decide) (by decide) (by decide) (by decide) (by decide) (by decide)
    (by decide) (by decide) (by decide)).2 ['1'] ['2'] ['3'] ['7']
    (by decide) (by decide) (by decide) (by decide) (by decide) (by decide) (by decide)
    (by decide) (by decide)
  rw [h]
  decide

/-- C2 (amended): the release command fails with the `NotAReleaseCandidate`
domain error, changing neither the stored state nor any tracked file, if and
only if `current_version` contains no match of `\d+\.\d+\.\d+rc\d+` (it may
also fail with a version-not-found domain error when that pattern does
match); and whenever the command succeeds on a `current_version` of the
strict shape `a.b.c` followed by the rc counter `k` — any counter — both
`current_version` and `current_semantic_version` become the `a.b.c` prefix
with the rc suffix stripped. -/
theorem C2_release_amended (cfg : Config) (files : List Target) (fuel : Nat) :
    ((runRelease cfg files fuel).2 =
        RunResult.err CmdErr.notAReleaseCandidate ⟨cfg, files⟩ ↔
      searchRc cfg.current_version = none) ∧
    (∀ a b c k : List Char, allDigits a = true → a.isEmpty = false →
      allDigits b = true → b.isEmpty = false → allDigits c = true → c.isEmpty = false →
      allDigits k = true → k.isEmpty = false →
      cfg.current_version = a ++ '.' :: (b ++ '.' :: (c ++ 'r' :: ('c' :: k))) →
      ∀ evs s, runRelease cfg files fuel = (evs, RunResult.ok s) →
        s.config.current_version = a ++ '.' :: (b ++ '.' :: c) ∧
        s.config.current_semantic_version = a ++ '.' :: (b ++ '.' :: c)) := by
  constructor
  · constructor
    · intro h
      cases hq : searchRc cfg.current_version with
      | none => rfl
      | some q =>
        exfalso
        cases hrel : searchRel cfg.current_version with
        | none =>
          rw [runRelease_crash cfg files fuel q hq hrel] at h
          simp at h
        | some cap =>
          rw [runRelease_step cfg files fuel q hq cap hrel] at h
          rcases hrvs : replaceVersionStrings cfg files cap (some cap) fuel with ⟨evs', r'⟩
          rw [hrvs] at h
          dsimp only at h
          cases r' with
          | ok s' => simp at h
          | err e' s' =>
            rw [RunResult.err.injEq] at h
            obtain ⟨he, -⟩ := h
            obtain ⟨⟨ov, pp, hvnf⟩, -⟩ :=
              replaceVersionStrings_err cfg files cap (some cap) fuel evs' e' s' (by rw [hrvs])
            rw [hvnf] at he
            exact absurd he (by simp)
          | hang s' => simp at h
    · intro h
      rw [runRelease_no_rc cfg files fuel h]
  · intro a b c k ha ha0 hb hb0 hc hc0 hk hk0 hcv evs s hrun
    have hsrc : searchRc cfg.current_version = some (a, b, c, k, []) := by
      apply searchRc_of_matchAt
      rw [hcv]
      simpa using matchRcAt_shape a b c k [] ha ha0 hb hb0 hc hc0 hk hk0 rfl
    have hrel : searchRel cfg.current_version = some (a ++ '.' :: (b ++ '.' :: c)) := by
      apply searchRel_of_matchAt
      rw [hcv]
      exact matchRelAt_shape a b c k ha ha0 hb hb0 hc hc0
    have hcapne : (a ++ '.' :: (b ++ '.' :: c)).isEmpty = false := by
      cases a <;> rfl
    exact runRelease_ok cfg files fuel _ hsrc _ hrel hcapne evs s hrun

/-- C2 counterexample: with `current_version = 1.2.3rc1` and a tracked file
lacking that string, release fails with the version-not-found domain error
(exit status 1) while changing nothing — yet `current_version` does contain
a match of the rc pattern, so the claimed equivalence between a
nothing-changed domain failure and a non-matching version is false. -/
theorem C2_counterexample :
    (runRelease ⟨"1.2.3rc1".data, "0.0.0".data⟩
        [Target.plain "f.txt".data "hello".data] 3).2 =
      RunResult.err (CmdErr.versionNotFound ("1.2.3rc1".data) ("f.txt".data))
        ⟨⟨"1.2.3rc1".data, "0.0.0".data⟩, [Target.plain "f.txt".data "hello".data]⟩ ∧
    (CmdErr.versionNotFound ("1.2.3rc1".data) ("f.txt".data)).exitCode = 1 ∧
    searchRc ("1.2.3rc1".data) ≠ none := by
  exact ⟨by decide, by decide, by decide⟩

/-- C2 witness: the amended claim applied at `1.2.3rc7` with no tracked
files; the successful release stores `1.2.3` in both fields. -/
theorem C2_release_amended_witness :
    (⟨⟨"1.2.3".data, "1.2.3".data⟩, ([] : List Target)⟩ : SysState).config.current_version =
      ['1'] ++ '.' :: (['2'] ++ '.' :: ['3']) ∧
    (⟨⟨"1.2.3".data, "1.2.3".data⟩, ([] : List Target)⟩ : SysState).config.current_semantic_version =
      ['1'] ++ '.' :: (['2'] ++ '.' :: ['3']) :=
  (C2_release_amended ⟨"1.2.3rc7".data, "0.0.0".data⟩ [] 2).2 ['1'] ['2'] ['3'] ['7']
    (by decide) (by decide) (by decide) (by decide) (by decide) (by decide) (by decide)
    (by decide) (by decide) [Eff.readConfigFile, Eff.writeConfigFile]
    ⟨⟨"1.2.3".data, "1.2.3".data⟩, []⟩ (by decide)

/-- C6: for every state in which `current_version` equals
`current_semantic_version` (of strict `M.N.P` shape), applying `bump rc` and
then `release`, whenever both commands succeed, restores
`current_version == current_semantic_version` with no rc suffix, equal to
the semantic value held before the rc bump. -/
theorem C6_rc_release_roundtrip (cfg : Config) (files : List Target) (gitHash : List Char)
    (fuel₁ fuel₂ : Nat) (m n p : List Char)
    (heq : cfg.current_version = cfg.current_semantic_version)
    (hshape : cfg.current_semantic_version = m ++ '.' :: (n ++ '.' :: p))
    (hm : allDigits m = true) (hm0 : m.isEmpty = false)
    (hn : allDigits n = true) (hn0 : n.isEmpty = false)
    (hp : allDigits p = true) (hp0 : p.isEmpty = false)
    (evs₁ : List Eff) (s₁ : SysState)
    (h₁ : runBump cfg files BumpPart.rc false gitHash fuel₁ = (evs₁, RunResult.ok s₁))
    (evs₂ : List Eff) (s₂ : SysState)
    (h₂ : runRelease s₁.config s₁.files fuel₂ = (evs₂, RunResult.ok s₂)) :
    s₂.config.current_version = s₂.config.current_semantic_version ∧
    s₂.config.current_version = cfg.current_semantic_version ∧
    hasSubstr s₂.config.current_version ("rc".data) = false := by
  have hsearch : searchSem cfg.current_semantic_version = some (m, n, p, []) :=
    searchSem_of_matchAt _ _ (by rw [hshape]; exact matchSemAt_exact m n p hm hm0 hn hn0 hp hp0)
  have hno : hasSubstr cfg.current_version ("rc".data) = false := by
    rw [heq, hshape]
    exact hasSubstr_rc_eq_false _ (sem_chars m n p hm hn hp)
  have ht := bumpTransition_rc_fresh cfg m n p [] hsearch hno
  have hs₁ := runBump_sem_ok cfg files BumpPart.rc false gitHash fuel₁ evs₁ s₁ _ _
    (by decide) ht (fmtSem_isEmpty _ _ _) h₁
  have hcv1 : s₁.config.current_version =
      m ++ '.' :: (n ++ '.' :: (p ++ 'r' :: ('c' :: ['1']))) := by
    rw [hs₁.1, heq, hshape, show ("rc1".data : List Char) = 'r' :: ('c' :: ['1']) from rfl]
    simp
  have hsrc : searchRc s₁.config.current_version = some (m, n, p, ['1'], []) := by
    apply searchRc_of_matchAt
    rw [hcv1]
    simpa using matchRcAt_shape m n p ['1'] [] hm hm0 hn hn0 hp hp0 (by decide) (by decide) rfl
  have hrel : searchRel s₁.config.current_version = some (m ++ '.' :: (n ++ '.' :: p)) := by
    apply searchRel_of_matchAt
    rw [hcv1]
    exact matchRelAt_shape m n p ['1'] hm hm0 hn hn0 hp hp0
  have hcapne : (m ++ '.' :: (n ++ '.' :: p)).isEmpty = false := by
    cases m <;> rfl
  have hs₂ := runRelease_ok s₁.config s₁.files fuel₂ _ hsrc _ hrel hcapne evs₂ s₂ h₂
  refine ⟨?_, ?_, ?_⟩
  · rw [hs₂.1, hs₂.2]
  · rw [hs₂.1, hshape]
  · rw [hs₂.1]
    exact hasSubstr_rc_eq_false _ (sem_chars m n p hm hn hp)

/-- C6 witness: the round trip at the state `1.2.3` with no tracked files:
bump rc yields `1.2.3rc1`, release restores `1.2.3` in both fields with no
rc substring. -/
theorem C6_rc_release_roundtrip_witness :
    (⟨⟨"1.2.3".data, "1.2.3".data⟩, ([] : List Target)⟩ : SysState).config.current_version =
      (⟨⟨"1.2.3".data, "1.2.3".data⟩, ([] : List Target)⟩ : SysState).config.current_semantic_version ∧
    (⟨⟨"1.2.3".data, "1.2.3".data⟩, ([] : List Target)⟩ : SysState).config.current_version =
      (⟨"1.2.3".data, "1.2.3".data⟩ : Config).current_semantic_version ∧
    hasSubstr (⟨⟨"1.2.3".data, "1.2.3".data⟩, ([] : List Target)⟩ : SysState).config.current_version
      ("rc".data) = false :=
  C6_rc_release_roundtrip ⟨"1.2.3".data, "1.2.3".data⟩ [] [] 2 2 ['1'] ['2'] ['3']
    (by decide) (by decide) (by decide) (by decide) (by decide) (by decide) (by decide)
    (by decide) [Eff.readConfigFile, Eff.writeConfigFile]
    ⟨⟨"1.2.3rc1".data, "1.2.3".data⟩, []⟩ (by decide)
    [Eff.readConfigFile, Eff.writeConfigFile] ⟨⟨"1.2.3".data, "1.2.3".data⟩, []⟩ (by decide)

/-- C9 (amended): requesting `bump rc` or `bump commit_hash` with the
release-candidate modifier set is always rejected as a usage error (exit
status 2) before any tracked file is read or modified and before the config
file is modified; the config file has, however, already been read by the
group callback when the rejection occurs, so the only effect of the run is
that single read. -/
theorem C9_usage_error_amended (cfg : Config) (files : List Target) (gitHash : List Char)
    (fuel : Nat) (part : BumpPart)
    (hp : part = BumpPart.rc ∨ part = BumpPart.commit_hash) :
    runBump cfg files part true gitHash fuel =
      ([Eff.readConfigFile],
       RunResult.err (CmdErr.usage (rcFlagUsageMsg part)) ⟨cfg, files⟩) ∧
    (CmdErr.usage (rcFlagUsageMsg part)).exitCode = 2 := by
  rcases hp with rfl | rfl
  · exact ⟨runBump_transition_err cfg files _ true gitHash fuel (by decide) _
      (bumpTransition_rc_usage cfg), rfl⟩
  · exact ⟨runBump_commit_flag cfg files gitHash fuel, rfl⟩

/-- C9 counterexample: the usage rejection of `bump commit_hash
--release-candidate` happens after the config file has been read: the
effect trace of the rejected run contains the config read, so the claim
that the rejection occurs before the config file is read is false. -/
theorem C9_counterexample :
    runBump ⟨"0.0.0".data, "0.0.0".data⟩ [Target.plain "f".data "0.0.0".data]
        BumpPart.commit_hash true "h".data 3 =
      ([Eff.readConfigFile],
       RunResult.err (CmdErr.usage commitHashUsageMsg)
         ⟨⟨"0.0.0".data, "0.0.0".data⟩, [Target.plain "f".data "0.0.0".data]⟩) ∧
    Eff.readConfigFile ∈ [Eff.readConfigFile] := by
  exact ⟨by decide, by decide⟩

/-- C9 witness: the amended claim at a concrete state for `bump rc
--release-candidate`. -/
theorem C9_usage_error_amended_witness :
    runBump ⟨"0.0.0".data, "0.0.0".data⟩ [] BumpPart.rc true [] 1 =
      ([Eff.readConfigFile],
       RunResult.err (CmdErr.usage (rcFlagUsageMsg BumpPart.rc))
         ⟨⟨"0.0.0".data, "0.0.0".data⟩, []⟩) ∧
    (CmdErr.usage (rcFlagUsageMsg BumpPart.rc)).exitCode = 2 :=
  C9_usage_error_amended ⟨"0.0.0".data, "0.0.0".data⟩ [] [] 1 BumpPart.rc (Or.inl rfl)

/-- C5 (amended): when the substitution pass reaches a plain tracked file
that does not contain the old `current_version` as a substring — every
earlier target having been handled successfully — the command aborts with
exit status 1 and the message `Unable to find <old_version> in <path>`; the
config file, the failing file and every later file remain unchanged, but the
targets before the failing one have already been rewritten on disk. -/
theorem C5_missing_version_amended (cfg : Config) (newV : List Char)
    (semOpt : Option (List Char)) (fuel : Nat) (ts₁ ts₂ : List Target) (pa c : List Char)
    (evs₁ : List Eff) (fs₁ : List Target)
    (hpre : processFiles cfg.current_version newV fuel ts₁ = (evs₁, FilesResult.ok fs₁))
    (hmiss : hasSubstr c cfg.current_version = false) :
    replaceVersionStrings cfg (ts₁ ++ Target.plain pa c :: ts₂) newV semOpt fuel =
      (evs₁ ++ [Eff.readTracked pa],
       RunResult.err (CmdErr.versionNotFound cfg.current_version pa)
         ⟨cfg, fs₁ ++ Target.plain pa c :: ts₂⟩) ∧
    (CmdErr.versionNotFound cfg.current_version pa).exitCode = 1 ∧
    (CmdErr.versionNotFound cfg.current_version pa).message =
      "Unable to find ".data ++ cfg.current_version ++ " in ".data ++ pa := by
  refine ⟨?_, rfl, rfl⟩
  have hpt : processTarget cfg.current_version newV fuel (Target.plain pa c) =
      PResult.err (CmdErr.versionNotFound cfg.current_version pa) := by
    simp [processTarget, hmiss]
  have htail : processFiles cfg.current_version newV fuel (Target.plain pa c :: ts₂) =
      ([Eff.readTracked pa],
       FilesResult.err (CmdErr.versionNotFound cfg.current_version pa)
         (Target.plain pa c :: ts₂)) := by
    rw [processFiles_cons, hpt]
    rfl
  have happ := processFiles_append cfg.current_version newV fuel ts₁
    (Target.plain pa c :: ts₂) evs₁ fs₁ hpre
  rw [htail] at happ
  dsimp only at happ
  unfold replaceVersionStrings
  rw [happ]

/-- C5 counterexample: `bump patch` on a config tracking two plain files,
the first containing `0.0.0` and the second not: the command fails with the
version-not-found error, the config is unchanged — but the first tracked
file has already been rewritten to contain `0.0.1`, so the claim that all
tracked files remain unchanged is false. -/
theorem C5_counterexample :
    runBump ⟨"0.0.0".data, "0.0.0".data⟩
        [Target.plain "a.txt".data "v 0.0.0".data, Target.plain "b.txt".data "xyz".data]
        BumpPart.patch false [] 3 =
      ([Eff.readConfigFile, Eff.readTracked "a.txt".data, Eff.writeTracked "a.txt".data,
        Eff.readTracked "b.txt".data],
       RunResult.err (CmdErr.versionNotFound ("0.0.0".data) ("b.txt".data))
         ⟨⟨"0.0.0".data, "0.0.0".data⟩,
          [Target.plain "a.txt".data "v 0.0.1".data, Target.plain "b.txt".data "xyz".data]⟩) ∧
    Target.plain ("a.txt".data) ("v 0.0.1".data) ≠ Target.plain ("a.txt".data) ("v 0.0.0".data) := by
  exact ⟨by decide, by decide⟩

/-- C5 witness: the amended claim at a concrete configuration with one
successfully rewritten file before the failing one. -/
theorem C5_missing_version_amended_witness :
    replaceVersionStrings ⟨"0.0.0".data, "0.0.0".data⟩
        ([Target.plain "a".data "0.0.0".data] ++ Target.plain "b".data "xyz".data :: [])
        ("0.0.1".data) (some ("0.0.1".data)) 3 =
      ([Eff.readTracked "a".data, Eff.writeTracked "a".data] ++ [Eff.readTracked "b".data],
       RunResult.err
         (CmdErr.versionNotFound (Config.current_version ⟨"0.0.0".data, "0.0.0".data⟩) ("b".data))
         ⟨⟨"0.0.0".data, "0.0.0".data⟩,
          [Target.plain "a".data "0.0.1".data] ++ Target.plain "b".data "xyz".data :: []⟩) ∧
    (CmdErr.versionNotFound (Config.current_version ⟨"0.0.0".data, "0.0.0".data⟩)
      ("b".data)).exitCode = 1 ∧
    (CmdErr.versionNotFound (Config.current_version ⟨"0.0.0".data, "0.0.0".data⟩)
      ("b".data)).message =
      "Unable to find ".data ++ Config.current_version ⟨"0.0.0".data, "0.0.0".data⟩ ++
        " in ".data ++ "b".data :=
  C5_missing_version_amended ⟨"0.0.0".data, "0.0.0".data⟩ ("0.0.1".data)
    (some ("0.0.1".data)) 3 [Target.plain "a".data "0.0.0".data] [] ("b".data) ("xyz".data)
    [Eff.readTracked "a".data, Eff.writeTracked "a".data]
    [Target.plain "a".data "0.0.1".data] (by decide) (by decide)

/-- C7 (amended): every operation — each bump kind with or without the
modifier, and release — applied to a well-formed state (a `current_version`
of one of the two documented shapes, a strict `M.N.P` semantic version and,
for `commit_hash`, a 40-hex revision from the collaborator), produces on
success a `current_version` again matching one of the two shapes, except
`bump rc` on a commit-hash `current_version`, which must be excluded: there
the new value `hash ++ "rc1"` matches neither shape. -/
theorem C7_shape_invariant_amended (cfg : Config) (files : List Target) (gitHash : List Char)
    (fuel : Nat) (op : Op)
    (hcv : validShape cfg.current_version = true)
    (hcsv : semStrict cfg.current_semantic_version = true)
    (hgit : isHash40 gitHash = true)
    (hrc : ∀ b : Bool, op = Op.bump BumpPart.rc b → isSemVerOpt cfg.current_version = true)
    (evs : List Eff) (s : SysState)
    (hrun : runOp cfg files gitHash fuel op = (evs, RunResult.ok s)) :
    validShape s.config.current_version = true := by
  obtain ⟨m, n, p, hshape, hm, hm0, hn, hn0, hp, hp0⟩ := semStrict_spec _ hcsv
  have hsearch : searchSem cfg.current_semantic_version = some (m, n, p, []) :=
    searchSem_of_matchAt _ _ (by rw [hshape]; exact matchSemAt_exact m n p hm hm0 hn hn0 hp hp0)
  cases op with
  | release =>
    simp only [runOp] at hrun
    cases hq : searchRc cfg.current_version with
    | none =>
      rw [runRelease_no_rc cfg files fuel hq] at hrun
      simp at hrun
    | some q =>
      cases hrel : searchRel cfg.current_version with
      | none =>
        rw [runRelease_crash cfg files fuel q hq hrel] at hrun
        simp at hrun
      | some cap =>
        have hcapsem := searchRel_isSemVerOpt _ _ hrel
        have hok := runRelease_ok cfg files fuel q hq cap hrel
          (isSemVerOpt_ne_nil cap hcapsem) evs s hrun
        rw [hok.1]
        simp [validShape, hcapsem]
  | bump part flag =>
    simp only [runOp] at hrun
    cases part with
    | commit_hash =>
      cases flag with
      | false =>
        rw [runBump_commit cfg files gitHash fuel] at hrun
        rcases hrvs : replaceVersionStrings cfg files gitHash none fuel with ⟨evs', r'⟩
        rw [hrvs] at hrun
        dsimp only at hrun
        rw [Prod.mk.injEq] at hrun
        obtain ⟨-, hr⟩ := hrun
        have := replaceVersionStrings_ok cfg files gitHash none fuel evs' s (by rw [hrvs, hr])
        rw [this.1]
        simp [validShape, hgit]
      | true =>
        rw [runBump_commit_flag cfg files gitHash fuel] at hrun
        simp at hrun
    | rc =>
      cases flag with
      | true =>
        rw [runBump_transition_err cfg files _ true gitHash fuel (by decide) _
          (bumpTransition_rc_usage cfg)] at hrun
        simp at hrun
      | false =>
        have hsem := hrc false rfl
        by_cases hyes : hasSubstr cfg.current_version ("rc".data) = true
        · obtain ⟨a, b, c, r', hmt', hor⟩ : ∃ a b c r',
              matchSemAt cfg.current_version = some (a, b, c, r') ∧
                (r'.isEmpty = true ∨ isRcSuffix r' = true) := by
            have hsem' := hsem
            unfold isSemVerOpt at hsem'
            split at hsem'
            · rename_i a b c r' hmt'
              exact ⟨a, b, c, r', hmt', Bool.or_eq_true _ _ ▸ hsem'⟩
            · exact absurd hsem' (by simp)
          rcases hor with he | hrcsuf
          · have hstrict : semStrict cfg.current_version = true := by
              simp [semStrict, hmt', he]
            rw [semStrict_no_rc _ hstrict] at hyes
            exact absurd hyes (by simp)
          · obtain ⟨ds, rfl, hds, hds0⟩ := isRcSuffix_spec r' hrcsuf
            obtain ⟨hcveq, ha, ha0, hb, hb0, hc, hc0, -⟩ := matchSemAt_spec _ a b c _ hmt'
            have hsrc : searchRc cfg.current_version = some (a, b, c, ds, []) := by
              apply searchRc_of_matchAt
              rw [hcveq]
              simpa using matchRcAt_shape a b c ds [] ha ha0 hb hb0 hc hc0 hds hds0 rfl
            have ht := bumpTransition_rc_again cfg m n p [] hsearch hyes a b c ds [] hsrc
            have hok := runBump_sem_ok cfg files BumpPart.rc false gitHash fuel evs s _ _
              (by decide) ht (fmtSem_isEmpty _ _ _) hrun
            rw [hok.1]
            simp [validShape, isSemVerOpt_append_rc _ _ hcsv (natToDigits_all _)
              (natToDigits_ne_nil _)]
        · rw [Bool.not_eq_true] at hyes
          have hstrict := semStrict_of_no_rc _ hsem hyes
          have ht := bumpTransition_rc_fresh cfg m n p [] hsearch hyes
          have hok := runBump_sem_ok cfg files BumpPart.rc false gitHash fuel evs s _ _
            (by decide) ht (fmtSem_isEmpty _ _ _) hrun
          rw [hok.1, show ("rc1".data : List Char) = 'r' :: ('c' :: ['1']) from rfl]
          simp [validShape, isSemVerOpt_append_rc _ _ hstrict
            (by decide : allDigits ['1'] = true) (by decide : (['1'] : List Char).isEmpty = false)]
    | major =>
      have ht := bumpTransition_major cfg m n p [] hsearch flag
      have hok := runBump_sem_ok cfg files BumpPart.major flag gitHash fuel evs s _ _
        (by decide) ht (fmtSem_isEmpty _ _ _) hrun
      rw [hok.1]
      exact validShape_fmt_opt _ _ _ flag
    | minor =>
      have ht := bumpTransition_minor cfg m n p [] hsearch flag
      have hok := runBump_sem_ok cfg files BumpPart.minor flag gitHash fuel evs s _ _
        (by decide) ht (fmtSem_isEmpty _ _ _) hrun
      rw [hok.1]
      exact validShape_fmt_opt _ _ _ flag
    | patch =>
      have ht := bumpTransition_patch cfg m n p [] hsearch flag
      have hok := runBump_sem_ok cfg files BumpPart.patch flag gitHash fuel evs s _ _
        (by decide) ht (fmtSem_isEmpty _ _ _) hrun
      rw [hok.1]
      exact validShape_fmt_opt _ _ _ flag

/-- C7 counterexample: `bump rc` on a well-formed state whose
`current_version` is a 40-hex commit hash succeeds and stores
`hash ++ "rc1"`, which matches neither of the two documented shapes. -/
theorem C7_counterexample :
    (runOp ⟨"aaaaaaaaaaaaaaaaaaaaaaaaaaaaaaaaaaaaaaaa".data, "0.0.0".data⟩ [] [] 1
        (Op.bump BumpPart.rc false)).2 =
      RunResult.ok ⟨⟨"aaaaaaaaaaaaaaaaaaaaaaaaaaaaaaaaaaaaaaaarc1".data, "0.0.0".data⟩, []⟩ ∧
    validShape ("aaaaaaaaaaaaaaaaaaaaaaaaaaaaaaaaaaaaaaaarc1".data) = false ∧
    validShape ("aaaaaaaaaaaaaaaaaaaaaaaaaaaaaaaaaaaaaaaa".data) = true ∧
    semStrict ("0.0.0".data) = true := by
  exact ⟨by decide, by decide, by decide, by decide⟩

/-- C7 witness: the amended invariant applied to a concrete `bump patch` on
the state `1.2.3`. -/
theorem C7_shape_invariant_amended_witness :
    validShape (⟨⟨"1.2.4".data, "1.2.4".data⟩, ([] : List Target)⟩ : SysState).config.current_version = true :=
  C7_shape_invariant_amended ⟨"1.2.3".data, "1.2.3".data⟩ [] ("57fabefae989244d87b562cc4fd576fb5e4e6933".data) 2
    (Op.bump BumpPart.patch false) (by decide) (by decide) (by decide)
    (by intro b hb; simp at hb) [Eff.readConfigFile, Eff.writeConfigFile]
    ⟨⟨"1.2.4".data, "1.2.4".data⟩, []⟩ (by decide)

/-- C4 (amended): for every search-pattern target, whenever the replacement
loop completes, the leftmost match (if any) of the compiled template pattern
in the rewritten content has its captured group equal to `new_version` —
matches after the leftmost one may keep a differing captured version — and
the loop does not terminate for every input text: replacing toward the new
version `hash ++ "rc1"` (produced by `bump rc` on a commit-hash state) in a
content holding the hash runs forever, since no capture of the pattern can
ever equal that value. -/
theorem C4_replacement_loop_amended :
    (∀ (preL sufL newV : List Char) (fuel : Nat) (content r : List Char),
        replaceLoop preL sufL newV fuel content = some r →
        leftmostCapIsNew preL sufL newV r = true) ∧
    (∀ fuel : Nat, replaceLoop [] [] (hashLike ++ "rc1".data) fuel hashLike = none) :=
  ⟨fun preL sufL newV fuel content r h =>
      replaceLoop_leftmost preL sufL newV fuel content r h,
   fun fuel => by
      have := replaceLoop_hash_diverges fuel 0
      simpa [rcReps] using this⟩

/-- C4 counterexample: template `version: ` followed by the placeholder,
new version `1.3.0`, content with two occurrences: the loop completes with
the second occurrence `9.9.9` still in place, so the rewritten content does
contain a match of the compiled pattern whose captured group differs from
`new_version`. -/
theorem C4_counterexample :
    replaceLoop ("version: ".data) [] ("1.3.0".data) 10
        ("version: 1.2.3 version: 9.9.9".data) =
      some ("version: 1.3.0 version: 9.9.9".data) ∧
    hasDifferingMatch ("version: ".data) [] ("1.3.0".data)
      ("version: 1.3.0 version: 9.9.9".data) = true := by
  exact ⟨by decide, by decide⟩

/-- C4 witness: the amended claim at the counterexample run: the completed
loop's output has its leftmost capture equal to the new version. -/
theorem C4_replacement_loop_amended_witness :
    leftmostCapIsNew ("version: ".data) [] ("1.3.0".data)
      ("version: 1.3.0 version: 9.9.9".data) = true :=
  C4_replacement_loop_amended.1 ("version: ".data) [] ("1.3.0".data) 10
    ("version: 1.2.3 version: 9.9.9".data) ("version: 1.3.0 version: 9.9.9".data)
    (by decide)

/-- C10: a search-pattern target whose file content contains no match of the
compiled template pattern is handled without any error, and the file is
written back with its content unchanged — search-pattern targets never
trigger the version-not-found failure of plain targets. -/
theorem C10_no_match_unchanged (old newV : List Char) (fuel : Nat)
    (pa preL sufL content : List Char)
    (h : searchTemplate preL sufL content = none) :
    processTarget old newV fuel (Target.search pa preL sufL content) =
      PResult.ok (Target.search pa preL sufL content) := by
  simp [processTarget, replaceLoop_no_match preL sufL newV fuel content h]

/-- C10 witness: a template `version: ` with empty trailing text finds no
match in the content `hello`, and the target is returned unchanged. -/
theorem C10_no_match_unchanged_witness :
    processTarget ("0.0.0".data) ("0.0.1".data) 4
      (Target.search "f".data ("version: ".data) [] ("hello".data)) =
      PResult.ok (Target.search "f".data ("version: ".data) [] ("hello".data)) :=
  C10_no_match_unchanged ("0.0.0".data) ("0.0.1".data) 4 "f".data ("version: ".data) []
    ("hello".data) (by decide)
